import Mathlib

/-!
Verification of the boxigon physics core against its specification.

The Python sources are shallowly embedded: Python float arithmetic is read
as real-number arithmetic (`ℝ`) wherever square roots occur, and as exact
rational arithmetic (`ℚ`) for the purely rational code paths (vehicle drive
ramp, NPC health bookkeeping, AABB raycast).  `pygame.math.Vector2` becomes
the structure `Vec` below.  Stateful methods become explicit state-passing
functions.  Object identity (Python `is`) is modelled by indexing objects
with natural numbers (or `Fin n`).
-/

namespace Boxigon

/-- 2D vector over ℝ, modelling `pygame.math.Vector2` of Python floats. -/
structure Vec where
  x : ℝ
  y : ℝ

namespace Vec

noncomputable instance : Add Vec := ⟨fun a b => ⟨a.x + b.x, a.y + b.y⟩⟩
noncomputable instance : Sub Vec := ⟨fun a b => ⟨a.x - b.x, a.y - b.y⟩⟩
noncomputable instance : Neg Vec := ⟨fun a => ⟨-a.x, -a.y⟩⟩
instance : Zero Vec := ⟨⟨0, 0⟩⟩

/-- Vector * scalar, as in `v * c` on a pygame Vector2. -/
noncomputable instance : HMul Vec ℝ Vec := ⟨fun v c => ⟨v.x * c, v.y * c⟩⟩

/-- Vector / scalar, as in `v / c` on a pygame Vector2. -/
noncomputable instance : HDiv Vec ℝ Vec := ⟨fun v c => ⟨v.x / c, v.y / c⟩⟩

/-- `Vector2.length()`. -/
noncomputable def len (v : Vec) : ℝ := Real.sqrt (v.x ^ 2 + v.y ^ 2)

/-- `Vector2.dot`. -/
noncomputable def dot (a b : Vec) : ℝ := a.x * b.x + a.y * b.y

theorem ext_iff {a b : Vec} : a = b ↔ a.x = b.x ∧ a.y = b.y := by
  cases a; cases b; simp

end Vec

/-- `npc.Particle`: a Verlet particle (`pos`, `prev`, `acc`, `mass`). -/
structure Particle where
  pos : Vec
  prev : Vec
  acc : Vec
  mass : ℝ

namespace Particle

/-- `Particle.apply_force`: `self.acc += f / max(self.mass, 1e-6)`. -/
noncomputable def applyForce (p : Particle) (f : Vec) : Particle :=
  { p with acc := p.acc + f / max p.mass 1e-6 }

/-- `Particle.update(dt)`:
`vel = pos - prev; prev = pos.copy(); pos += vel + acc*(dt*dt); acc = (0,0)`. -/
noncomputable def update (p : Particle) (dt : ℝ) : Particle :=
  let vel := p.pos - p.prev
  { p with
    prev := p.pos
    pos := p.pos + vel + p.acc * (dt * dt)
    acc := ⟨0, 0⟩ }

end Particle

/-! ## Brick weld tree (src/makersgun/brick.py) -/

/-- State of a `makersgun.Brick` in a world of `n` bricks.  Python object
references (`welded_to`, `welded_children`) become indices `Fin n`. -/
structure BrickSt (n : ℕ) where
  p : Particle
  size : ℝ
  weldedTo : Option (Fin n)
  weldedOffset : Vec
  weldedChildren : List (Fin n)

/-- The active brick list supplied by the driver, as a world map. -/
abbrev BrickWorld (n : ℕ) := Fin n → BrickSt n

/-- Loop of `Brick.get_root`: walk the `welded_to` chain, breaking cycles
with the visited set `seen` (`if id(cur) in seen: break`). -/
def getRootAux (n : ℕ) (w : Fin n → Option (Fin n)) (cur : Fin n)
    (seen : Finset (Fin n)) : Fin n :=
  match w cur with
  | none => cur
  | some parent =>
    if hc : cur ∈ seen then cur
    else getRootAux n w parent (insert cur seen)
termination_by n - seen.card
decreasing_by
  have h1 : (insert cur seen).card = seen.card + 1 :=
    Finset.card_insert_of_not_mem hc
  have h2 : (insert cur seen).card ≤ n := by
    simpa using Finset.card_le_univ (insert cur seen)
  omega

/-- `Brick.get_root` on a bare `welded_to` configuration. -/
def getRootF (n : ℕ) (w : Fin n → Option (Fin n)) (b : Fin n) : Fin n :=
  getRootAux n w b ∅

/-- `Brick.get_root` for brick `b` of a brick world. -/
def getRoot (w : BrickWorld n) (b : Fin n) : Fin n :=
  getRootF n (fun k => (w k).weldedTo) b

/-- `b` reaches `c` along the `welded_to` chain (`c` is `b` or an ancestor). -/
inductive Reaches (w : Fin n → Option (Fin n)) : Fin n → Fin n → Prop
  | refl (a : Fin n) : Reaches w a a
  | step {a b c : Fin n} : w a = some b → Reaches w b c → Reaches w a c

/-- `Brick.add_weld(parent)` with `offset=None`: brick `i` becomes welded to
brick `j`; bookkeeping of the old and new parents' child lists. -/
noncomputable def addWeld (w : BrickWorld n) (i j : Fin n) : BrickWorld n :=
  let w1 : BrickWorld n :=
    match (w i).weldedTo with
    | some old =>
        if old = j then w
        else Function.update w old
          { w old with weldedChildren := ((w old).weldedChildren).erase i }
    | none => w
  let w2 := Function.update w1 i
      { w1 i with
        weldedTo := some j
        weldedOffset := (w1 i).p.pos - (w1 j).p.pos }
  Function.update w2 j
      { w2 j with
        weldedChildren :=
          if i ∈ (w2 j).weldedChildren then (w2 j).weldedChildren
          else (w2 j).weldedChildren ++ [i] }

/-- `Brick.remove_weld`: detach brick `i` from its parent, if any. -/
noncomputable def removeWeld (w : BrickWorld n) (i : Fin n) : BrickWorld n :=
  let w1 : BrickWorld n :=
    match (w i).weldedTo with
    | some par => Function.update w par
        { w par with weldedChildren := ((w par).weldedChildren).erase i }
    | none => w
  Function.update w1 i { w1 i with weldedTo := none }

/-! Named pieces of the brick-vs-brick collision loop of `Brick.update`,
so that theorems can refer to the exact quantities the code computes. -/

/-- `diff = self.p.pos - other.p.pos`. -/
noncomputable def contactDiff (w : BrickWorld n) (i j : Fin n) : Vec :=
  (w i).p.pos - (w j).p.pos

/-- `dist = diff.length()`. -/
noncomputable def contactDist (w : BrickWorld n) (i j : Fin n) : ℝ :=
  Vec.len (contactDiff w i j)

/-- `min_dist = (self.size + other.size) / 2`. -/
noncomputable def contactMinDist (w : BrickWorld n) (i j : Fin n) : ℝ :=
  ((w i).size + (w j).size) / 2

/-- `norm = diff / dist`. -/
noncomputable def contactNorm (w : BrickWorld n) (i j : Fin n) : Vec :=
  contactDiff w i j / contactDist w i j

/-- `self.p.pos += norm * overlap * self_ratio` — position of `self` after
the separating push (only `self` is pushed by the code). -/
noncomputable def contactSelfPushedPos (w : BrickWorld n) (i j : Fin n) : Vec :=
  (w i).p.pos + contactNorm w i j *
    ((contactMinDist w i j - contactDist w i j) *
      ((w j).p.mass / ((w i).p.mass + (w j).p.mass)))

/-- `rel_vel = self_vel - other_vel`, measured after the separating push and
before the restitution impulse (this is the quantity the snap test uses). -/
noncomputable def contactRelVel (w : BrickWorld n) (i j : Fin n) : Vec :=
  (contactSelfPushedPos w i j - (w i).p.prev) - ((w j).p.pos - (w j).p.prev)

/-- Body of the `for other in other_bricks` loop of `Brick.update`: brick `i`
(the one being updated) against brick `j`.  Translates the skip tests, the
separating push, the restitution impulse, and the snap/weld block. -/
noncomputable def collideBody (w : BrickWorld n) (i j : Fin n) : BrickWorld n :=
  if j = i then w
  else if getRoot w i = getRoot w j then w
  else
    let dist := contactDist w i j
    let minDist := contactMinDist w i j
    if dist < minDist ∧ 0 < dist then
      let norm := contactNorm w i j
      let selfPos1 := contactSelfPushedPos w i j
      let selfVel := selfPos1 - (w i).p.prev
      let otherVel := (w j).p.pos - (w j).p.prev
      let relVel := selfVel - otherVel
      let velAlongNormal := Vec.dot relVel norm
      let impulsePrevs : Vec × Vec :=
        if velAlongNormal < 0 then
          let restitution : ℝ := 0.3
          let jimp := (-(1 + restitution) * velAlongNormal) /
            (1 / (w i).p.mass + 1 / (w j).p.mass)
          let impulse := norm * jimp
          (selfPos1 - (selfVel + impulse / (w i).p.mass),
           (w j).p.pos - (otherVel - impulse / (w j).p.mass))
        else ((w i).p.prev, (w j).p.prev)
      let w1 := Function.update w i
        { w i with p := { (w i).p with pos := selfPos1, prev := impulsePrevs.1 } }
      let w2 := Function.update w1 j
        { w1 j with p := { (w1 j).p with prev := impulsePrevs.2 } }
      let relSpeed := Vec.len relVel
      let verticalIndicator := norm.y
      let horizSep := |(contactDiff w i j).x|
      let horizTol := ((w i).size + (w j).size) * 0.35
      if verticalIndicator < -0.7 ∧ relSpeed < 120 ∧ horizSep < horizTol then
        let w3 := addWeld w2 i j
        let parentVel := (w3 j).p.pos - (w3 j).p.prev
        Function.update w3 i
          { w3 i with p := { (w3 i).p with prev := (w3 i).p.pos - parentVel } }
      else w2
    else w

/-- `Brick.update(dt, floor_y, other_bricks)` for brick `i` (scalar floor).
Faithful to the source: the welded-follow block does NOT return early, so
gravity, integration, floor and the collision loop still run afterwards. -/
noncomputable def brickUpdate (w : BrickWorld n) (i : Fin n) (dt : ℝ)
    (floorY : Option ℝ) (otherBricks : Option (List (Fin n))) : BrickWorld n :=
  let w1 : BrickWorld n :=
    match (w i).weldedTo with
    | none => w
    | some par =>
      if otherBricks ≠ none ∧ par ∉ otherBricks.getD [] then removeWeld w i
      else
        let newPos := (w par).p.pos + (w i).weldedOffset
        let parentVel := (w par).p.pos - (w par).p.prev
        Function.update w i
          { w i with p := { (w i).p with pos := newPos, prev := newPos - parentVel } }
  let w2 := Function.update w1 i
    { w1 i with p := ((w1 i).p.applyForce ((⟨0, 900⟩ : Vec) * (w1 i).p.mass)).update dt }
  let w3 : BrickWorld n :=
    match floorY with
    | none => w2
    | some fy =>
      if (w2 i).p.pos.y > fy - (w2 i).size / 2 then
        let newPos : Vec := ⟨(w2 i).p.pos.x, fy - (w2 i).size / 2⟩
        let friction : ℝ := 0.35
        let vel := newPos - (w2 i).p.prev
        let vel2 : Vec := ⟨vel.x * friction, 0⟩
        Function.update w2 i
          { w2 i with p := { (w2 i).p with pos := newPos, prev := newPos - vel2 } }
      else w2
  match otherBricks with
  | none => w3
  | some os => os.foldl (fun acc j => collideBody acc i j) w3

/-! ## Welding tool joint graph (src/wield.py) -/

/-- A joint record `{a, b, a_attach, b_attach, offset, group}`.  The group
field is `none` when the Python code stores `None` there. -/
structure Joint where
  a : ℕ
  b : ℕ
  aAttach : Option ℕ
  bAttach : Option ℕ
  offset : Vec
  group : Option ℕ

/-- `WeldingTool` state relevant to the joint graph.  `weldGroups` models the
insertion-ordered Python dict `weld_groups : group_id -> set(object)` as an
association list; `welded` is the list of touched `(object, attach_index)`
entries (the `'npc'/'brick'` kind tag is dropped: all modelled objects are
single-particle, brick-like objects). -/
structure ToolState where
  pos : Vec
  radius : ℝ
  welded : List (ℕ × Option ℕ)
  joints : List Joint
  lastWeldTarget : Option (ℕ × Option ℕ)
  weldGroups : List (ℕ × Finset ℕ)
  maxGroupSize : ℕ

/-- Weldable objects, modelled as single-particle (`hasattr(obj, 'p')`)
objects indexed by `ℕ`. -/
abbrev ObjWorld := ℕ → Particle

/-- First group (in dict order) whose member set contains `o`, as in
`for group_id, objects in self.weld_groups.items(): if target in objects`. -/
def findGroup : List (ℕ × Finset ℕ) → ℕ → Option ℕ
  | [], _ => none
  | (g, objs) :: rest, o => if o ∈ objs then some g else findGroup rest o

/-- Member set stored under group id `g` (first entry with that id). -/
def groupSet (groups : List (ℕ × Finset ℕ)) (g : ℕ) : Finset ℕ :=
  match groups.find? (fun e => e.1 == g) with
  | some e => e.2
  | none => ∅

/-- `get_attach_pos(obj, attach_idx)` for a brick-like object: the particle
position when no attach index is given, `None` otherwise (the
`obj.particles[attach_idx]` lookup fails on a brick). -/
noncomputable def getAttachPos (w : ObjWorld) (o : ℕ) (idx : Option ℕ) : Option Vec :=
  match idx with
  | none => some (w o).pos
  | some _ => none

/-- Separating push at the top of `weld_effect` for a brick-like target:
`diff = target.p.pos - tool_pos; dist = diff.length() if nonzero else 0.001;
delta = (diff/dist) * max(4.0, radius*0.25)`. -/
noncomputable def weldPushDelta (s : ToolState) (w : ObjWorld) (target : ℕ) : Vec :=
  let diff := (w target).pos - s.pos
  let dist := if Vec.len diff ≠ 0 then Vec.len diff else 0.001
  (diff / dist) * (max 4 (s.radius * 0.25) : ℝ)

/-- `target.p.pos += delta; target.p.prev += delta * 0.5`. -/
noncomputable def weldPush (s : ToolState) (w : ObjWorld) (target : ℕ) : ObjWorld :=
  Function.update w target
    { w target with
      pos := (w target).pos + weldPushDelta s w target
      prev := (w target).prev + weldPushDelta s w target * (0.5 : ℝ) }

/-- One iteration of the `for other_target, _, other_attach in self.welded`
loop of `weld_effect` (the branch where the target already belongs to group
`tg`).  `pb` is the target's attach position computed before the loop; the
accumulator carries the evolving `(weld_groups, joints)` pair. -/
noncomputable def weldLoopStep (radius : ℝ) (maxGroupSize : ℕ) (w : ObjWorld)
    (target : ℕ) (attachIndex : Option ℕ) (tg : ℕ) (pb : Vec)
    (acc : List (ℕ × Finset ℕ) × List Joint) (entry : ℕ × Option ℕ) :
    List (ℕ × Finset ℕ) × List Joint :=
  let groups := acc.1
  let joints := acc.2
  let other := entry.1
  if other = target then acc
  else
    let otherGroup := findGroup groups other
    if otherGroup = some tg then acc
    else
      match getAttachPos w other entry.2 with
      | none => acc
      | some pa =>
        if Vec.len (pb - pa) < radius * 2 then
          let merged : List (ℕ × Finset ℕ) × List Joint :=
            match otherGroup with
            | some og =>
              if (groupSet groups tg).card + (groupSet groups og).card ≤ maxGroupSize then
                ((groups.map fun e =>
                    if e.1 = tg then (e.1, e.2 ∪ groupSet groups og) else e).filter
                    (fun e => e.1 != og),
                 joints.map fun j =>
                   if j.group = some og then { j with group := some tg } else j)
              else (groups, joints)
            | none =>
              if (groupSet groups tg).card < maxGroupSize then
                (groups.map fun e => if e.1 = tg then (e.1, insert other e.2) else e,
                 joints)
              else (groups, joints)
          let jointExists := merged.2.any fun j =>
            (j.a == target && j.b == other) || (j.a == other && j.b == target)
          if jointExists then merged
          else (merged.1, merged.2 ++
            [{ a := target, b := other, aAttach := attachIndex, bAttach := entry.2,
               offset := pa - pb, group := some tg }])
        else acc

/-- `WeldingTool.weld_effect(target, attach_index)` for brick-like objects.
The cosmetic `target.color` change is dropped; everything else — the
separating push, the new-pair branch, the group-merge loop, and the
`_last_weld_target` update — is translated directly from the source. -/
noncomputable def weldEffect (s : ToolState) (w : ObjWorld) (target : ℕ)
    (attachIndex : Option ℕ) : ToolState × ObjWorld :=
  let w1 := weldPush s w target
  let targetGroup := findGroup s.weldGroups target
  let s1 : ToolState :=
    match targetGroup, s.lastWeldTarget with
    | none, some lastEntry =>
      let last := lastEntry.1
      let lastGroup := findGroup s.weldGroups last
      match getAttachPos w1 last lastEntry.2, getAttachPos w1 target attachIndex with
      | some pa, some pb =>
        if Vec.len (pb - pa) < s.radius * 2 then
          let added : List (ℕ × Finset ℕ) × Option ℕ :=
            match lastGroup with
            | some lg =>
              if (groupSet s.weldGroups lg).card < s.maxGroupSize then
                (s.weldGroups.map fun e =>
                   if e.1 = lg then (e.1, insert target e.2) else e,
                 some lg)
              else (s.weldGroups, none)
            | none =>
              let newG := s.weldGroups.length
              (s.weldGroups ++ [(newG, insert last {target})], some newG)
          let jointExists := s.joints.any fun j =>
            (j.a == last && j.b == target) || (j.a == target && j.b == last)
          let joints1 :=
            if jointExists then s.joints
            else s.joints ++
              [{ a := last, b := target, aAttach := lastEntry.2,
                 bAttach := attachIndex, offset := pb - pa, group := added.2 }]
          { s with weldGroups := added.1, joints := joints1 }
        else s
      | _, _ => s
    | some tg, _ =>
      match getAttachPos w1 target attachIndex with
      | none => s
      | some pb =>
        let looped := s.welded.foldl
          (weldLoopStep s.radius s.maxGroupSize w1 target attachIndex tg pb)
          (s.weldGroups, s.joints)
        { s with weldGroups := looped.1, joints := looped.2 }
    | none, none => s
  ({ s1 with lastWeldTarget := some (target, attachIndex) }, w1)

/-! ## NPC health and bleed state (src/npc.py) -/

/-- Health fields of `NPC`.  The geometric fields (particles, constraints,
cut set) never read or write these: `hp` is written only in
`apply_bullet_hit` and the bleed block of `update`, `bleed_time` likewise,
and `stand_enabled` only in `drop_dead`.  `dropDeadCount` counts the calls
to `drop_dead()` (whose particle impulse is irrelevant to these fields). -/
structure NPCHealth where
  hp : ℚ
  bleedTime : ℚ
  bleedDps : ℚ
  standEnabled : Bool
  dropDeadCount : ℕ
deriving DecidableEq

/-- Health effect of `NPC.drop_dead`: `stand_enabled = False`. -/
def dropDeadHealth (s : NPCHealth) : NPCHealth :=
  { s with standEnabled := false, dropDeadCount := s.dropDeadCount + 1 }

/-- Bleed block at the end of `NPC.update(dt)`: while `bleed_time > 0`,
decrement the timer, subtract `bleed_dps*dt` from `hp`, and call
`drop_dead()` when `hp <= 0`. -/
def npcBleedStep (s : NPCHealth) (dt : ℚ) : NPCHealth :=
  if s.bleedTime > 0 then
    let s1 := { s with bleedTime := s.bleedTime - dt, hp := s.hp - s.bleedDps * dt }
    if s1.hp ≤ 0 then dropDeadHealth s1 else s1
  else s

/-- Health effect of `NPC.apply_bullet_hit(pos)` once
`nearest_particle_index(pos, max_dist=40)` found a particle:
`bleed_time = max(bleed_time, 2.5); hp -= 10`. -/
def applyBulletHitHealth (s : NPCHealth) : NPCHealth :=
  { s with bleedTime := max s.bleedTime 2.5, hp := s.hp - 10 }

/-- Fresh NPC health state (`hp=100`, `bleed_dps=20`, standing). -/
def npcHealthInit : NPCHealth :=
  { hp := 100, bleedTime := 0, bleedDps := 20, standEnabled := true,
    dropDeadCount := 0 }

/-! ## NPC constraint relaxation (src/npc.py, NPC.update) -/

/-- One constraint `(i, j, rest)` of a relaxation pass:
`delta = pb - pa; d = |delta|; skip if d == 0; else move each endpoint by
half of `delta * (d-rest)/d`. -/
noncomputable def relaxConstraint (ps : List Vec) (c : ℕ × ℕ × ℝ) : List Vec :=
  let pa := ps.getD c.1 ⟨0, 0⟩
  let pb := ps.getD c.2.1 ⟨0, 0⟩
  let delta := pb - pa
  let d := Vec.len delta
  if d = 0 then ps
  else
    let diff := (d - c.2.2) / d
    (ps.set c.1 (pa + delta * (0.5 : ℝ) * diff)).set c.2.1
      (pb - delta * (0.5 : ℝ) * diff)

/-- One relaxation pass: `for i, j, rest in self.constraints: …`. -/
noncomputable def relaxPass (cs : List (ℕ × ℕ × ℝ)) (ps : List Vec) : List Vec :=
  cs.foldl relaxConstraint ps

/-! ## Bike drive ramp (src/vehicles/bike.py) -/

/-- `drive_accel` default from `Bike.__init__`. -/
def driveAccel : ℚ := 800

/-- `drive_max` default from `Bike.__init__`. -/
def driveMax : ℚ := 480

/-- `Bike.drive(vx, dt)` restricted to its effect on `drive_vel` (the ramp
toward `±drive_max`, or the 1.5× decay toward 0 without input); `drive_vel`
is read and written nowhere else in `drive`. -/
def driveStep (v vx dt : ℚ) : ℚ :=
  let target : ℚ :=
    if |vx| > 1/1000 then (if vx > 0 then driveMax else -driveMax) else 0
  if |target| > 1/1000 then
    if v < target then
      let v1 := v + driveAccel * dt
      if v1 > target then target else v1
    else if v > target then
      let v1 := v - driveAccel * dt
      if v1 < target then target else v1
    else v
  else
    if v > 0 then
      let v1 := v - driveAccel * 1.5 * dt
      if v1 < 0 then 0 else v1
    else if v < 0 then
      let v1 := v + driveAccel * 1.5 * dt
      if v1 > 0 then 0 else v1
    else v

/-- Repeated `drive` calls with a fixed input `vx` over the time steps
`dts`, starting from `drive_vel = v0`. -/
def driveRun (vx : ℚ) (dts : List ℚ) (v0 : ℚ) : ℚ :=
  dts.foldl (fun v dt => driveStep v vx dt) v0

/-! ## Raycast vs AABB (src/colison.py) -/

/-- `raycast_aabb(origin, direction, max_dist, aabb_center, aabb_size)` for a
scalar (square) size.  A hit returns `some (t, hit_pos, normal)`; a miss
models `(False, None, None, None)` as `none`.  Translated literally,
including the `1e-8` direction threshold, the `±1e9` slab sentinels, and the
final `t_hit = tmin if tmin >= 0 else tmax` selection (the source performs
no `tmax < tmin` overlap test). -/
def raycastAabb (ox oy dirx diry maxDist ax ay size : ℚ) :
    Option (ℚ × (ℚ × ℚ) × Option (ℚ × ℚ)) :=
  let halfW := size * 0.5
  let halfH := size * 0.5
  let minBx := ax - halfW
  let maxBx := ax + halfW
  let minBy := ay - halfH
  let maxBy := ay + halfH
  let finish : ℚ → ℚ → Option (ℚ × ℚ) → Option (ℚ × (ℚ × ℚ) × Option (ℚ × ℚ)) :=
    fun tmin tmax normal =>
      let tHit := if tmin ≥ 0 then tmin else tmax
      if tHit < 0 ∨ tHit > maxDist then none
      else some (tHit, (ox + dirx * tHit, oy + diry * tHit), normal)
  let ySlab : ℚ → ℚ → Option (ℚ × ℚ) → Option (ℚ × (ℚ × ℚ) × Option (ℚ × ℚ)) :=
    fun tmin tmax normal =>
      if |diry| < 1/100000000 then
        if oy < minBy ∨ oy > maxBy then none
        else finish tmin tmax normal
      else
        let ty1 := (minBy - oy) / diry
        let ty2 := (maxBy - oy) / diry
        let tyLo := if ty1 > ty2 then ty2 else ty1
        let tyHi := if ty1 > ty2 then ty1 else ty2
        let stepMin : ℚ × Option (ℚ × ℚ) :=
          if tyLo > tmin then (tyLo, some (0, if diry > 0 then -1 else 1))
          else (tmin, normal)
        let tmax1 := if tyHi < tmax then tyHi else tmax
        finish stepMin.1 tmax1 stepMin.2
  if |dirx| < 1/100000000 then
    if ox < minBx ∨ ox > maxBx then none
    else ySlab (-1000000000) 1000000000 none
  else
    let tx1 := (minBx - ox) / dirx
    let tx2 := (maxBx - ox) / dirx
    let txLo := if tx1 > tx2 then tx2 else tx1
    let txHi := if tx1 > tx2 then tx1 else tx2
    let stepMin : ℚ × Option (ℚ × ℚ) :=
      if txLo > -1000000000 then (txLo, some (if dirx > 0 then -1 else 1, 0))
      else (-1000000000, none)
    let tmax1 := if txHi < 1000000000 then txHi else 1000000000
    ySlab stepMin.1 tmax1 stepMin.2

/-- Following the spec's words ("the ray origin + direction*t intersects the
axis-aligned box"): the ray point at parameter `t` lies inside the square
AABB of side `size` centered at `(ax, ay)`. -/
def specRayPointInBox (ox oy dirx diry ax ay size t : ℚ) : Prop :=
  ax - size / 2 ≤ ox + dirx * t ∧ ox + dirx * t ≤ ax + size / 2 ∧
  ay - size / 2 ≤ oy + diry * t ∧ oy + diry * t ≤ ay + size / 2

/-! ## Concrete fixtures used by witnesses and counterexamples -/

/-- Two-brick world: brick 0 ("A") resting at (100,100); brick 1 ("B")
directly above it at (100,70), moving downward fast enough that the contact
relative speed measured by the code is 130 units/s. -/
noncomputable def wFast : BrickWorld 2 := fun k =>
  if k = 0 then
    ⟨⟨⟨100, 100⟩, ⟨100, 100⟩, ⟨0, 0⟩, 1⟩, 40, none, ⟨0, 0⟩, []⟩
  else
    ⟨⟨⟨100, 70⟩, ⟨100, -65⟩, ⟨0, 0⟩, 1⟩, 40, none, ⟨0, 0⟩, []⟩

/-- Two-brick world: as `wFast` but brick 1 falls slowly (contact relative
speed 50 units/s, below the 120 snap threshold). -/
noncomputable def wSlow : BrickWorld 2 := fun k =>
  if k = 0 then
    ⟨⟨⟨100, 100⟩, ⟨100, 100⟩, ⟨0, 0⟩, 1⟩, 40, none, ⟨0, 0⟩, []⟩
  else
    ⟨⟨⟨100, 70⟩, ⟨100, 15⟩, ⟨0, 0⟩, 1⟩, 40, none, ⟨0, 0⟩, []⟩

/-- Two-brick world: brick 0 is welded to brick 1 (offset (0,-40)); both at
rest at the origin. -/
noncomputable def wWeld : BrickWorld 2 := fun k =>
  if k = 0 then
    ⟨⟨⟨0, 0⟩, ⟨0, 0⟩, ⟨0, 0⟩, 1⟩, 40, some 1, ⟨0, -40⟩, []⟩
  else
    ⟨⟨⟨0, 0⟩, ⟨0, 0⟩, ⟨0, 0⟩, 1⟩, 40, none, ⟨0, 0⟩, [0]⟩

/-- Tool state holding two full weld groups of 60 members each (objects
1..60 and 61..120); object 61 was touched earlier this frame. -/
noncomputable def sCap : ToolState :=
  { pos := ⟨0, 0⟩, radius := 36, welded := [(61, none)], joints := [],
    lastWeldTarget := none,
    weldGroups := [(0, Finset.Icc 1 60), (1, Finset.Icc 61 120)],
    maxGroupSize := 100 }

/-- Tool state holding two singleton weld groups {1} and {2}; object 2 was
touched earlier this frame. -/
noncomputable def sSmall : ToolState :=
  { pos := ⟨0, 0⟩, radius := 36, welded := [(2, none)], joints := [],
    lastWeldTarget := none,
    weldGroups := [(0, {1}), (1, {2})],
    maxGroupSize := 100 }

/-- Object world with every object's particle at rest at the origin. -/
noncomputable def oWorldZero : ObjWorld := fun _ => ⟨⟨0, 0⟩, ⟨0, 0⟩, ⟨0, 0⟩, 1⟩

end Boxigon

/-! # Theorems -/

namespace Boxigon

/-! ## Vector arithmetic lemmas -/

@[simp] theorem Vec.add_def (a b : Vec) : a + b = ⟨a.x + b.x, a.y + b.y⟩ := rfl

@[simp] theorem Vec.sub_def (a b : Vec) : a - b = ⟨a.x - b.x, a.y - b.y⟩ := rfl

@[simp] theorem Vec.mul_def (v : Vec) (c : ℝ) : v * c = ⟨v.x * c, v.y * c⟩ := rfl

@[simp] theorem Vec.div_def (v : Vec) (c : ℝ) : v / c = ⟨v.x / c, v.y / c⟩ := rfl

theorem Vec.len_horizontal (a : ℝ) : Vec.len ⟨a, 0⟩ = |a| := by
  simp [Vec.len, Real.sqrt_sq_eq_abs]

theorem Vec.len_vertical (a : ℝ) : Vec.len ⟨0, a⟩ = |a| := by
  simp [Vec.len, Real.sqrt_sq_eq_abs]

/-! ## C7: Verlet integration step -/

/-- C7: `Particle.update(dt)` is a pure function of the particle state and
`dt`: `prev` becomes the old `pos`, `pos` becomes
`pos + (pos - prev_old) + acc*dt²`, `acc` resets to `(0,0)`, and no other
field (`mass`) changes.  Determinism/reproducibility is inherent: the
translation is a function of exactly `(pos, prev, acc, mass)` and `dt`. -/
theorem C7_particle_update_verlet (p : Particle) (dt : ℝ) :
    Particle.update p dt =
      { pos := p.pos + (p.pos - p.prev) + p.acc * (dt ^ 2)
        prev := p.pos
        acc := ⟨0, 0⟩
        mass := p.mass } := by
  simp [Particle.update, pow_two]

/-! ## C10: weld-tree root lookup terminates -/

theorem getRootAux_reaches (n : ℕ) (w : Fin n → Option (Fin n)) (cur : Fin n)
    (seen : Finset (Fin n)) : Reaches w cur (getRootAux n w cur seen) := by
  rw [getRootAux]
  split
  · exact Reaches.refl _
  · rename_i parent hpar
    split
    · exact Reaches.refl _
    · exact Reaches.step hpar (getRootAux_reaches n w parent _)
termination_by n - seen.card
decreasing_by
  rename_i hc
  have h1 : (insert cur seen).card = seen.card + 1 :=
    Finset.card_insert_of_not_mem hc
  have h2 : (insert cur seen).card ≤ n := by
    simpa using Finset.card_le_univ (insert cur seen)
  omega

theorem getRootAux_none (n : ℕ) (w : Fin n → Option (Fin n)) (cur : Fin n)
    (seen : Finset (Fin n)) (hw : w cur = none) :
    getRootAux n w cur seen = cur := by
  rw [getRootAux, hw]

/-- C10: `Brick.get_root` terminates on every `welded_to` configuration,
adversarial cycles included (the visited-set guard of the source is mirrored
by well-founded recursion on the unvisited count), and returns a node
reached along the chain; when `welded_to` is `None` it returns the brick
itself. -/
theorem C10_get_root_terminates (n : ℕ) (w : Fin n → Option (Fin n)) (b : Fin n) :
    Reaches w b (getRootF n w b) ∧ (w b = none → getRootF n w b = b) :=
  ⟨getRootAux_reaches n w b ∅, fun h => getRootAux_none n w b ∅ h⟩

/-- Witness for C10: a concrete two-brick chain, applied at the unwelded
brick 1 (and the chain from brick 0 also reaches the returned root). -/
theorem C10_get_root_terminates_witness :
    Reaches (fun k : Fin 2 => if k = 0 then some 1 else none) 1
      (getRootF 2 (fun k : Fin 2 => if k = 0 then some 1 else none) 1) ∧
    getRootF 2 (fun k : Fin 2 => if k = 0 then some 1 else none) 1 = 1 := by
  have h := C10_get_root_terminates 2 (fun k : Fin 2 => if k = 0 then some 1 else none) 1
  exact ⟨h.1, h.2 (by decide)⟩

/-! ## C9: bike drive ramp -/

theorem driveStep_pos_input (vx : ℚ) (hvx : 1/1000 < vx) (v dt : ℚ)
    (hv1 : v ≤ 480) (hdt : 0 ≤ dt) :
    driveStep v vx dt = min 480 (v + 800 * dt) := by
  have hvxpos : (0 : ℚ) < vx := lt_trans (by norm_num) hvx
  have habs : |vx| = vx := abs_of_pos hvxpos
  simp only [driveStep, driveAccel, driveMax, habs]
  rw [if_pos hvx, if_pos hvxpos, if_pos (by norm_num : |(480 : ℚ)| > 1/1000)]
  rcases lt_or_eq_of_le hv1 with hlt | heq
  · rw [if_pos hlt]
    rcases le_or_lt (v + 800 * dt) 480 with hle | hgt
    · rw [if_neg (not_lt.mpr hle), min_eq_right hle]
    · rw [if_pos hgt, min_eq_left (le_of_lt hgt)]
  · subst heq
    rw [if_neg (lt_irrefl _), if_neg (lt_irrefl _),
        min_eq_left (by linarith)]

theorem driveRun_min (vx : ℚ) (hvx : 1/1000 < vx) :
    ∀ (dts : List ℚ), (∀ d ∈ dts, 0 ≤ d) →
      ∀ v, v ≤ 480 → driveRun vx dts v = min 480 (v + 800 * dts.sum) := by
  intro dts
  induction dts with
  | nil =>
    intro _ v hv1
    simp [driveRun, min_eq_right, hv1]
  | cons dt rest ih =>
    intro hd v hv1
    have hdt : 0 ≤ dt := hd dt (by simp)
    have hrest : ∀ d ∈ rest, 0 ≤ d := fun d hdm => hd d (by simp [hdm])
    have hsum : 0 ≤ rest.sum := List.sum_nonneg hrest
    have hstep := driveStep_pos_input vx hvx v dt hv1 hdt
    have h1 : driveRun vx (dt :: rest) v = driveRun vx rest (driveStep v vx dt) := rfl
    rw [h1, hstep, ih hrest _ (min_le_left _ _), List.sum_cons]
    rcases le_or_lt (v + 800 * dt) 480 with hle | hgt
    · rw [min_eq_right hle]
      ring_nf
    · rw [min_eq_left (le_of_lt hgt), min_eq_left (by linarith),
          min_eq_left (by linarith)]

/-- C9: with constant positive input, `drive_vel` starting at 0 increases
monotonically by at most `drive_accel*dt = 800*dt` per step, never exceeds
`drive_max = 480`, equals `min 480 (800 * elapsed)` after any sequence of
nonnegative steps, and is therefore exactly 480 once the accumulated
simulated time reaches `480/800 = 0.6 s`. -/
theorem C9_drive_ramp (vx : ℚ) (hvx : 1/1000 < vx) (dts : List ℚ)
    (hdts : ∀ d ∈ dts, 0 ≤ d) :
    (∀ v dt, v ≤ 480 → 0 ≤ dt →
        v ≤ driveStep v vx dt ∧ driveStep v vx dt ≤ v + 800 * dt ∧
        driveStep v vx dt ≤ 480) ∧
    driveRun vx dts 0 = min 480 (800 * dts.sum) ∧
    (3/5 ≤ dts.sum → driveRun vx dts 0 = 480) := by
  have hrun := driveRun_min vx hvx dts hdts 0 (by norm_num)
  rw [zero_add] at hrun
  refine ⟨?_, hrun, ?_⟩
  · intro v dt hv1 hdt
    rw [driveStep_pos_input vx hvx v dt hv1 hdt]
    refine ⟨le_min (by linarith) (by linarith), ?_, min_le_left _ _⟩
    exact le_trans (min_le_right _ _) (by linarith)
  · intro hsum
    rw [hrun, min_eq_left (by linarith)]

/-- Witness for C9: input 1 held for three steps of 0.2 s reaches exactly
480, and one step from rest at dt = 0.2 stays within every bound. -/
theorem C9_drive_ramp_witness :
    driveRun 1 [1/5, 1/5, 1/5] 0 = 480 ∧
    (0 : ℚ) ≤ driveStep 0 1 (1/5) ∧ driveStep 0 1 (1/5) ≤ 0 + 800 * (1/5) ∧
    driveStep 0 1 (1/5) ≤ 480 := by
  have h := C9_drive_ramp 1 (by norm_num) [1/5, 1/5, 1/5] (by norm_num)
  have hstep := h.1 0 (1/5) (by norm_num) (by norm_num)
  exact ⟨h.2.2 (by norm_num), hstep.1, hstep.2.1, hstep.2.2⟩

/-! ## C5: bleed-to-death scenario -/

/-- During the first 25 steps of `dt = 0.1` after the hit, the bleed block
fires every step: `hp = 90 - 2k`, `bleed_time = 2.5 - k/10`, no `drop_dead`. -/
theorem bleedPhase :
    ∀ k : ℕ, k ≤ 25 →
      (fun s => npcBleedStep s (1/10))^[k] (applyBulletHitHealth npcHealthInit) =
        { hp := 90 - 2 * (k : ℚ), bleedTime := 5/2 - (k : ℚ)/10, bleedDps := 20,
          standEnabled := true, dropDeadCount := 0 } := by
  intro k
  induction k with
  | zero =>
    intro _
    simp only [Function.iterate_zero, id_eq, applyBulletHitHealth, npcHealthInit]
    norm_num
  | succ m ih =>
    intro hk
    have hm : (m : ℚ) ≤ 24 := by
      exact_mod_cast Nat.le_of_succ_le_succ hk
    rw [Function.iterate_succ_apply', ih (by omega)]
    unfold npcBleedStep
    rw [if_pos (by simp only; linarith), if_neg (by simp only; linarith)]
    simp only [NPCHealth.mk.injEq]
    push_cast
    refine ⟨by ring, by ring, trivial, trivial, trivial⟩

/-- After step 25 the bleed timer is exactly 0 and the state is a fixed
point of further updates. -/
theorem bleedAfter25 :
    (fun s => npcBleedStep s (1/10))^[25] (applyBulletHitHealth npcHealthInit) =
      { hp := 40, bleedTime := 0, bleedDps := 20,
        standEnabled := true, dropDeadCount := 0 } := by
  rw [bleedPhase 25 le_rfl]
  norm_num

theorem bleedExpiredFixed :
    npcBleedStep (⟨40, 0, 20, true, 0⟩ : NPCHealth) (1/10) =
      (⟨40, 0, 20, true, 0⟩ : NPCHealth) := by
  unfold npcBleedStep
  rw [if_neg (by norm_num)]

theorem bleedAfter30 :
    (fun s => npcBleedStep s (1/10))^[30] (applyBulletHitHealth npcHealthInit) =
      { hp := 40, bleedTime := 0, bleedDps := 20,
        standEnabled := true, dropDeadCount := 0 } := by
  have h30 : (30 : ℕ) = 5 + 25 := by norm_num
  rw [h30, Function.iterate_add_apply, bleedAfter25]
  exact Function.iterate_fixed bleedExpiredFixed 5

/-- C5 counterexample: with `hp = 100` and `bleed_dps = 20`, one hit
(−10 immediate) plus at most 2.5 s of bleed (−50) cannot reach 0: after the
hit and 30 updates at `dt = 0.1`, `hp = 40 > 0`, `drop_dead` never fired,
and `stand_enabled` is still true — the claim's asserted outcome
(`hp ≤ 0`, one `drop_dead`, standing disabled) is false at its own input. -/
theorem C5_bleed_counterexample :
    ((fun s => npcBleedStep s (1/10))^[30]
        (applyBulletHitHealth npcHealthInit)).hp = 40 ∧
    (0 : ℚ) < ((fun s => npcBleedStep s (1/10))^[30]
        (applyBulletHitHealth npcHealthInit)).hp ∧
    ((fun s => npcBleedStep s (1/10))^[30]
        (applyBulletHitHealth npcHealthInit)).dropDeadCount = 0 ∧
    ((fun s => npcBleedStep s (1/10))^[30]
        (applyBulletHitHealth npcHealthInit)).standEnabled = true := by
  rw [bleedAfter30]
  exact ⟨rfl, by norm_num, rfl, rfl⟩

/-- C5 amended: the hit subtracts 10 hp (100 → 90) and sets the bleed timer
to 2.5 s; over 30 updates at `dt = 0.1` the bleed fires on exactly the first
25 steps (−2 hp each), leaving `hp = 40` (not ≤ 0); `drop_dead` is never
triggered and `stand_enabled` remains true. -/
theorem C5_bleed_amended :
    (applyBulletHitHealth npcHealthInit).hp = 90 ∧
    (applyBulletHitHealth npcHealthInit).bleedTime = 5/2 ∧
    ((fun s => npcBleedStep s (1/10))^[25]
        (applyBulletHitHealth npcHealthInit)).bleedTime = 0 ∧
    ((fun s => npcBleedStep s (1/10))^[30]
        (applyBulletHitHealth npcHealthInit)).hp = 40 ∧
    ((fun s => npcBleedStep s (1/10))^[30]
        (applyBulletHitHealth npcHealthInit)).dropDeadCount = 0 ∧
    ((fun s => npcBleedStep s (1/10))^[30]
        (applyBulletHitHealth npcHealthInit)).standEnabled = true := by
  rw [bleedAfter25, bleedAfter30]
  refine ⟨?_, ?_, rfl, rfl, rfl, rfl⟩
  · simp [applyBulletHitHealth, npcHealthInit]
    norm_num
  · simp [applyBulletHitHealth, npcHealthInit]
    norm_num

/-! ## C6: raycast slab method -/

/-- C6: the source omits the `tmax >= max(tmin, 0)` overlap test demanded by
its own comment, so disjoint slab intervals are not rejected: for the ray
from (-10, 6) with direction (1, 1) against the square of side 10 centered
at the origin, the X slab gives `tmin = 5` and the Y slab gives
`tmax = -1 < tmin`, yet the code returns a hit at `t = 5` with "hit point"
(-5, 11) — a point never on the box: no `t ∈ [0, max_dist]` puts the ray
inside the box (its y-coordinate `6 + t` always exceeds 5). -/
theorem C6_raycast_false_hit_on_disjoint_slabs :
    raycastAabb (-10) 6 1 1 100 0 0 10 = some (5, (-5, 11), some (-1, 0)) ∧
    ∀ t : ℚ, 0 ≤ t → ¬ specRayPointInBox (-10) 6 1 1 0 0 10 t := by
  constructor
  · norm_num [raycastAabb]
  · intro t ht h
    simp only [specRayPointInBox] at h
    have h4 := h.2.2.2
    linarith

/-! ## C8: constraint relaxation step and convergence -/

theorem relaxStepOnce :
    relaxPass [(0, 1, 50)] [(⟨0, 0⟩ : Vec), ⟨100, 0⟩] = [⟨25, 0⟩, ⟨75, 0⟩] := by
  simp only [relaxPass, List.foldl_cons, List.foldl_nil, relaxConstraint,
    List.getD, List.get?, Option.getD, Vec.sub_def]
  norm_num [Vec.len_horizontal]

theorem relaxStepFixed :
    relaxPass [(0, 1, 50)] [(⟨25, 0⟩ : Vec), ⟨75, 0⟩] = [⟨25, 0⟩, ⟨75, 0⟩] := by
  simp only [relaxPass, List.foldl_cons, List.foldl_nil, relaxConstraint,
    List.getD, List.get?, Option.getD, Vec.sub_def]
  norm_num [Vec.len_horizontal]

theorem relaxIterFixed (k : ℕ) (hk1 : 1 ≤ k) :
    (relaxPass [(0, 1, 50)])^[k] [(⟨0, 0⟩ : Vec), ⟨100, 0⟩] = [⟨25, 0⟩, ⟨75, 0⟩] := by
  obtain ⟨m, rfl⟩ : ∃ m, k = m + 1 := ⟨k - 1, by omega⟩
  rw [Function.iterate_succ_apply, relaxStepOnce]
  exact Function.iterate_fixed relaxStepFixed m

/-- C8: each constraint application skips the pair when the inter-particle
distance is 0, and otherwise moves `posA` by `delta*0.5*(d-rest)/d` and
`posB` by the opposite amount; for a single constraint of rest 50 between
two equal-mass particles 100 apart, the distance is 100 before the passes
and exactly 50 after each of the 5 relaxation passes — it approaches 50
monotonically and never overshoots below it. -/
theorem C8_constraint_relaxation :
    (∀ (ps : List Vec) (c : ℕ × ℕ × ℝ),
        Vec.len (ps.getD c.2.1 ⟨0, 0⟩ - ps.getD c.1 ⟨0, 0⟩) = 0 →
        relaxConstraint ps c = ps) ∧
    (∀ (ps : List Vec) (i j : ℕ) (rest : ℝ),
        Vec.len (ps.getD j ⟨0, 0⟩ - ps.getD i ⟨0, 0⟩) ≠ 0 →
        relaxConstraint ps (i, j, rest) =
          (ps.set i (ps.getD i ⟨0, 0⟩ +
              (ps.getD j ⟨0, 0⟩ - ps.getD i ⟨0, 0⟩) * (0.5 : ℝ) *
                ((Vec.len (ps.getD j ⟨0, 0⟩ - ps.getD i ⟨0, 0⟩) - rest) /
                  Vec.len (ps.getD j ⟨0, 0⟩ - ps.getD i ⟨0, 0⟩)))).set j
            (ps.getD j ⟨0, 0⟩ -
              (ps.getD j ⟨0, 0⟩ - ps.getD i ⟨0, 0⟩) * (0.5 : ℝ) *
                ((Vec.len (ps.getD j ⟨0, 0⟩ - ps.getD i ⟨0, 0⟩) - rest) /
                  Vec.len (ps.getD j ⟨0, 0⟩ - ps.getD i ⟨0, 0⟩)))) ∧
    Vec.len (([(⟨0, 0⟩ : Vec), ⟨100, 0⟩].getD 1 ⟨0, 0⟩) -
        ([(⟨0, 0⟩ : Vec), ⟨100, 0⟩].getD 0 ⟨0, 0⟩)) = 100 ∧
    (∀ k, 1 ≤ k → k ≤ 5 →
        Vec.len ((((relaxPass [(0, 1, 50)])^[k] [(⟨0, 0⟩ : Vec), ⟨100, 0⟩]).getD 1 ⟨0, 0⟩) -
          (((relaxPass [(0, 1, 50)])^[k] [(⟨0, 0⟩ : Vec), ⟨100, 0⟩]).getD 0 ⟨0, 0⟩)) = 50) := by
  refine ⟨?_, ?_, ?_, ?_⟩
  · intro ps c h
    unfold relaxConstraint
    rw [if_pos h]
  · intro ps i j rest h
    unfold relaxConstraint
    rw [if_neg h]
  · simp only [List.getD, List.get?, Option.getD, Vec.sub_def]
    norm_num [Vec.len_horizontal]
  · intro k hk1 _
    rw [relaxIterFixed k hk1]
    simp only [List.getD, List.get?, Option.getD, Vec.sub_def]
    norm_num [Vec.len_horizontal]

/-- Witness for C8: the degenerate (coincident) pair is skipped, and the
concrete 100-apart pair is at distance exactly 50 after the 5 passes. -/
theorem C8_constraint_relaxation_witness :
    relaxConstraint [(⟨3, 4⟩ : Vec), ⟨3, 4⟩] (0, 1, 50) = [⟨3, 4⟩, ⟨3, 4⟩] ∧
    Vec.len ((((relaxPass [(0, 1, 50)])^[5] [(⟨0, 0⟩ : Vec), ⟨100, 0⟩]).getD 1 ⟨0, 0⟩) -
      (((relaxPass [(0, 1, 50)])^[5] [(⟨0, 0⟩ : Vec), ⟨100, 0⟩]).getD 0 ⟨0, 0⟩)) = 50 := by
  have h := C8_constraint_relaxation
  refine ⟨h.1 _ _ ?_, h.2.2.2 5 (by norm_num) (by norm_num)⟩
  simp only [List.getD, List.get?, Option.getD, Vec.sub_def]
  norm_num [Vec.len]

/-! ## C1: snap-weld trigger -/

theorem getRoot_of_none (w : BrickWorld n) (b : Fin n)
    (h : (w b).weldedTo = none) : getRoot w b = b :=
  getRootAux_none n _ b ∅ h

theorem addWeld_self_weldedTo (w : BrickWorld n) (i j : Fin n) (hij : i ≠ j)
    (hwi : (w i).weldedTo = none) : ((addWeld w i j) i).weldedTo = some j := by
  simp only [addWeld, hwi]
  rw [Function.update_noteq hij, Function.update_same]

/-- Outcome of the snap branch of the collision loop, for an arbitrary
intermediate world `w2`: the updating brick ends welded to `j` with the
parent's velocity copied. -/
theorem collide_snap_result (w2 : BrickWorld n) (i j : Fin n) (hij : i ≠ j)
    (hw2i : (w2 i).weldedTo = none) :
    ((Function.update (addWeld w2 i j) i
        { (addWeld w2 i j) i with p := { ((addWeld w2 i j) i).p with
            prev := ((addWeld w2 i j) i).p.pos -
              (((addWeld w2 i j) j).p.pos - ((addWeld w2 i j) j).p.prev) } }) i).weldedTo
      = some j ∧
    ((Function.update (addWeld w2 i j) i
        { (addWeld w2 i j) i with p := { ((addWeld w2 i j) i).p with
            prev := ((addWeld w2 i j) i).p.pos -
              (((addWeld w2 i j) j).p.pos - ((addWeld w2 i j) j).p.prev) } }) i).p.pos -
      ((Function.update (addWeld w2 i j) i
        { (addWeld w2 i j) i with p := { ((addWeld w2 i j) i).p with
            prev := ((addWeld w2 i j) i).p.pos -
              (((addWeld w2 i j) j).p.pos - ((addWeld w2 i j) j).p.prev) } }) i).p.prev =
      ((Function.update (addWeld w2 i j) i
        { (addWeld w2 i j) i with p := { ((addWeld w2 i j) i).p with
            prev := ((addWeld w2 i j) i).p.pos -
              (((addWeld w2 i j) j).p.pos - ((addWeld w2 i j) j).p.prev) } }) j).p.pos -
      ((Function.update (addWeld w2 i j) i
        { (addWeld w2 i j) i with p := { ((addWeld w2 i j) i).p with
            prev := ((addWeld w2 i j) i).p.pos -
              (((addWeld w2 i j) j).p.pos - ((addWeld w2 i j) j).p.prev) } }) j).p.prev := by
  constructor
  · rw [Function.update_same]
    exact addWeld_self_weldedTo w2 i j hij hw2i
  · rw [Function.update_same, Function.update_noteq (Ne.symm hij)]
    rw [Vec.ext_iff]
    constructor <;> (simp only [Vec.sub_def]; ring)

/-- C1 (amended): whenever the brick-vs-brick pass of `Brick.update`
resolves a contact between two unwelded bricks (positive center distance
below `(sizeA+sizeB)/2`) and (i) the contact relative velocity the code
measures — after the separating push, before the restitution impulse — is
below 120 units/s, (ii) the contact normal satisfies `normal.y < -0.7`, and
(iii) the horizontal separation is below `0.35*(sizeA+sizeB)`, then after
that pass the updating (upper) brick is welded to the lower brick and its
velocity `pos - prev` equals the lower brick's. -/
theorem C1_snap_weld_amended (n : ℕ) (w : BrickWorld n) (i j : Fin n)
    (hij : i ≠ j)
    (hwi : (w i).weldedTo = none) (hwj : (w j).weldedTo = none)
    (hd0 : 0 < contactDist w i j)
    (hd1 : contactDist w i j < contactMinDist w i j)
    (hrv : Vec.len (contactRelVel w i j) < 120)
    (hny : (contactNorm w i j).y < -0.7)
    (hhx : |(contactDiff w i j).x| < 0.35 * ((w i).size + (w j).size)) :
    ((collideBody w i j) i).weldedTo = some j ∧
    ((collideBody w i j) i).p.pos - ((collideBody w i j) i).p.prev =
      ((collideBody w i j) j).p.pos - ((collideBody w i j) j).p.prev := by
  have hji : j ≠ i := Ne.symm hij
  have hroot : ¬ getRoot w i = getRoot w j := by
    rw [getRoot_of_none w i hwi, getRoot_of_none w j hwj]
    exact hij
  have hrv' : Vec.len (contactSelfPushedPos w i j - (w i).p.prev -
      ((w j).p.pos - (w j).p.prev)) < 120 := hrv
  have hhx' : |(contactDiff w i j).x| < ((w i).size + (w j).size) * 0.35 := by
    rw [mul_comm]; exact hhx
  simp only [collideBody]
  rw [if_neg hji, if_neg hroot, if_pos (And.intro hd1 hd0),
      if_pos (And.intro hny (And.intro hrv' hhx'))]
  exact collide_snap_result _ i j hij
    (by rw [Function.update_noteq hij, Function.update_same]; exact hwi)

theorem wSlow_diff : contactDiff wSlow 1 0 = ⟨0, -30⟩ := by
  have e1 : wSlow 1 = ⟨⟨⟨100, 70⟩, ⟨100, 15⟩, ⟨0, 0⟩, 1⟩, 40, none, ⟨0, 0⟩, []⟩ := rfl
  have e0 : wSlow 0 = ⟨⟨⟨100, 100⟩, ⟨100, 100⟩, ⟨0, 0⟩, 1⟩, 40, none, ⟨0, 0⟩, []⟩ := rfl
  simp only [contactDiff, e1, e0, Vec.sub_def]
  norm_num

theorem wSlow_dist : contactDist wSlow 1 0 = 30 := by
  simp only [contactDist, wSlow_diff, Vec.len_vertical]
  norm_num

theorem wSlow_minDist : contactMinDist wSlow 1 0 = 40 := by
  have e1 : wSlow 1 = ⟨⟨⟨100, 70⟩, ⟨100, 15⟩, ⟨0, 0⟩, 1⟩, 40, none, ⟨0, 0⟩, []⟩ := rfl
  have e0 : wSlow 0 = ⟨⟨⟨100, 100⟩, ⟨100, 100⟩, ⟨0, 0⟩, 1⟩, 40, none, ⟨0, 0⟩, []⟩ := rfl
  simp only [contactMinDist, e1, e0]
  norm_num

theorem wSlow_norm : contactNorm wSlow 1 0 = ⟨0, -1⟩ := by
  simp only [contactNorm, wSlow_diff, wSlow_dist, Vec.div_def]
  norm_num

theorem wSlow_push : contactSelfPushedPos wSlow 1 0 = ⟨100, 65⟩ := by
  have e1 : wSlow 1 = ⟨⟨⟨100, 70⟩, ⟨100, 15⟩, ⟨0, 0⟩, 1⟩, 40, none, ⟨0, 0⟩, []⟩ := rfl
  have e0 : wSlow 0 = ⟨⟨⟨100, 100⟩, ⟨100, 100⟩, ⟨0, 0⟩, 1⟩, 40, none, ⟨0, 0⟩, []⟩ := rfl
  simp only [contactSelfPushedPos, wSlow_norm, wSlow_minDist, wSlow_dist, e1, e0,
    Vec.mul_def, Vec.add_def]
  norm_num

theorem wSlow_relVel : contactRelVel wSlow 1 0 = ⟨0, 50⟩ := by
  have e1 : wSlow 1 = ⟨⟨⟨100, 70⟩, ⟨100, 15⟩, ⟨0, 0⟩, 1⟩, 40, none, ⟨0, 0⟩, []⟩ := rfl
  have e0 : wSlow 0 = ⟨⟨⟨100, 100⟩, ⟨100, 100⟩, ⟨0, 0⟩, 1⟩, 40, none, ⟨0, 0⟩, []⟩ := rfl
  simp only [contactRelVel, wSlow_push, e1, e0, Vec.sub_def]
  norm_num

/-- Witness for the amended C1: brick B at (100,70) dropping onto brick A at
(100,100) with contact relative speed 50 < 120, horizontal offset 0 — after
the pass B is welded to A with A's velocity. -/
theorem C1_snap_weld_amended_witness :
    ((collideBody wSlow 1 0) 1).weldedTo = some 0 ∧
    ((collideBody wSlow 1 0) 1).p.pos - ((collideBody wSlow 1 0) 1).p.prev =
      ((collideBody wSlow 1 0) 0).p.pos - ((collideBody wSlow 1 0) 0).p.prev := by
  apply C1_snap_weld_amended 2 wSlow 1 0
  · decide
  · rfl
  · rfl
  · rw [wSlow_dist]; norm_num
  · rw [wSlow_dist, wSlow_minDist]; norm_num
  · rw [wSlow_relVel, Vec.len_vertical]; norm_num
  · rw [wSlow_norm]; norm_num
  · have e1 : wSlow 1 = ⟨⟨⟨100, 70⟩, ⟨100, 15⟩, ⟨0, 0⟩, 1⟩, 40, none, ⟨0, 0⟩, []⟩ := rfl
    have e0 : wSlow 0 = ⟨⟨⟨100, 100⟩, ⟨100, 100⟩, ⟨0, 0⟩, 1⟩, 40, none, ⟨0, 0⟩, []⟩ := rfl
    rw [wSlow_diff, e1, e0]
    norm_num

theorem wFast_diff : contactDiff wFast 1 0 = ⟨0, -30⟩ := by
  have e1 : wFast 1 = ⟨⟨⟨100, 70⟩, ⟨100, -65⟩, ⟨0, 0⟩, 1⟩, 40, none, ⟨0, 0⟩, []⟩ := rfl
  have e0 : wFast 0 = ⟨⟨⟨100, 100⟩, ⟨100, 100⟩, ⟨0, 0⟩, 1⟩, 40, none, ⟨0, 0⟩, []⟩ := rfl
  simp only [contactDiff, e1, e0, Vec.sub_def]
  norm_num

theorem wFast_dist : contactDist wFast 1 0 = 30 := by
  simp only [contactDist, wFast_diff, Vec.len_vertical]
  norm_num

theorem wFast_minDist : contactMinDist wFast 1 0 = 40 := by
  have e1 : wFast 1 = ⟨⟨⟨100, 70⟩, ⟨100, -65⟩, ⟨0, 0⟩, 1⟩, 40, none, ⟨0, 0⟩, []⟩ := rfl
  have e0 : wFast 0 = ⟨⟨⟨100, 100⟩, ⟨100, 100⟩, ⟨0, 0⟩, 1⟩, 40, none, ⟨0, 0⟩, []⟩ := rfl
  simp only [contactMinDist, e1, e0]
  norm_num

theorem wFast_norm : contactNorm wFast 1 0 = ⟨0, -1⟩ := by
  simp only [contactNorm, wFast_diff, wFast_dist, Vec.div_def]
  norm_num

theorem wFast_push : contactSelfPushedPos wFast 1 0 = ⟨100, 65⟩ := by
  have e1 : wFast 1 = ⟨⟨⟨100, 70⟩, ⟨100, -65⟩, ⟨0, 0⟩, 1⟩, 40, none, ⟨0, 0⟩, []⟩ := rfl
  have e0 : wFast 0 = ⟨⟨⟨100, 100⟩, ⟨100, 100⟩, ⟨0, 0⟩, 1⟩, 40, none, ⟨0, 0⟩, []⟩ := rfl
  simp only [contactSelfPushedPos, wFast_norm, wFast_minDist, wFast_dist, e1, e0,
    Vec.mul_def, Vec.add_def]
  norm_num

theorem wFast_relVel : contactSelfPushedPos wFast 1 0 - (wFast 1).p.prev -
    ((wFast 0).p.pos - (wFast 0).p.prev) = ⟨0, 130⟩ := by
  have e1 : wFast 1 = ⟨⟨⟨100, 70⟩, ⟨100, -65⟩, ⟨0, 0⟩, 1⟩, 40, none, ⟨0, 0⟩, []⟩ := rfl
  have e0 : wFast 0 = ⟨⟨⟨100, 100⟩, ⟨100, 100⟩, ⟨0, 0⟩, 1⟩, 40, none, ⟨0, 0⟩, []⟩ := rfl
  simp only [wFast_push, e1, e0, Vec.sub_def]
  norm_num

/-- The fast-contact pair takes the impulse branch but fails the snap test
(pre-impulse relative speed 130 ≥ 120): brick 1 ends at (100,65) with
prev (100,19.5), unwelded. -/
theorem wFast_result1 : (collideBody wFast 1 0) 1 =
    ⟨⟨⟨100, 65⟩, ⟨100, 19.5⟩, ⟨0, 0⟩, 1⟩, 40, none, ⟨0, 0⟩, []⟩ := by
  have e1 : wFast 1 = ⟨⟨⟨100, 70⟩, ⟨100, -65⟩, ⟨0, 0⟩, 1⟩, 40, none, ⟨0, 0⟩, []⟩ := rfl
  have e0 : wFast 0 = ⟨⟨⟨100, 100⟩, ⟨100, 100⟩, ⟨0, 0⟩, 1⟩, 40, none, ⟨0, 0⟩, []⟩ := rfl
  have hroot : ¬ getRoot wFast 1 = getRoot wFast 0 := by
    rw [getRoot_of_none wFast 1 rfl, getRoot_of_none wFast 0 rfl]
    decide
  have hdotneg : Vec.dot (contactSelfPushedPos wFast 1 0 - (wFast 1).p.prev -
      ((wFast 0).p.pos - (wFast 0).p.prev)) (contactNorm wFast 1 0) < 0 := by
    rw [wFast_relVel, wFast_norm]
    simp only [Vec.dot]
    norm_num
  have hnosnap : ¬ ((contactNorm wFast 1 0).y < -0.7 ∧
      Vec.len (contactSelfPushedPos wFast 1 0 - (wFast 1).p.prev -
        ((wFast 0).p.pos - (wFast 0).p.prev)) < 120 ∧
      |(contactDiff wFast 1 0).x| < ((wFast 1).size + (wFast 0).size) * 0.35) := by
    intro h
    have h2 := h.2.1
    rw [wFast_relVel, Vec.len_vertical] at h2
    norm_num at h2
  simp only [collideBody]
  rw [if_neg (show ¬ (0 : Fin 2) = 1 by decide), if_neg hroot,
      if_pos (And.intro (by rw [wFast_dist, wFast_minDist]; norm_num)
        (by rw [wFast_dist]; norm_num)),
      if_pos hdotneg, if_neg hnosnap]
  rw [Function.update_noteq (show (1 : Fin 2) ≠ 0 by decide), Function.update_same]
  rw [wFast_push, wFast_norm, e1, e0]
  simp only [BrickSt.mk.injEq, Particle.mk.injEq, Vec.dot, Vec.mul_def, Vec.div_def,
    Vec.add_def, Vec.sub_def, Vec.mk.injEq]
  norm_num

theorem wFast_result0 : (collideBody wFast 1 0) 0 =
    ⟨⟨⟨100, 100⟩, ⟨100, 15.5⟩, ⟨0, 0⟩, 1⟩, 40, none, ⟨0, 0⟩, []⟩ := by
  have e1 : wFast 1 = ⟨⟨⟨100, 70⟩, ⟨100, -65⟩, ⟨0, 0⟩, 1⟩, 40, none, ⟨0, 0⟩, []⟩ := rfl
  have e0 : wFast 0 = ⟨⟨⟨100, 100⟩, ⟨100, 100⟩, ⟨0, 0⟩, 1⟩, 40, none, ⟨0, 0⟩, []⟩ := rfl
  have hroot : ¬ getRoot wFast 1 = getRoot wFast 0 := by
    rw [getRoot_of_none wFast 1 rfl, getRoot_of_none wFast 0 rfl]
    decide
  have hdotneg : Vec.dot (contactSelfPushedPos wFast 1 0 - (wFast 1).p.prev -
      ((wFast 0).p.pos - (wFast 0).p.prev)) (contactNorm wFast 1 0) < 0 := by
    rw [wFast_relVel, wFast_norm]
    simp only [Vec.dot]
    norm_num
  have hnosnap : ¬ ((contactNorm wFast 1 0).y < -0.7 ∧
      Vec.len (contactSelfPushedPos wFast 1 0 - (wFast 1).p.prev -
        ((wFast 0).p.pos - (wFast 0).p.prev)) < 120 ∧
      |(contactDiff wFast 1 0).x| < ((wFast 1).size + (wFast 0).size) * 0.35) := by
    intro h
    have h2 := h.2.1
    rw [wFast_relVel, Vec.len_vertical] at h2
    norm_num at h2
  simp only [collideBody]
  rw [if_neg (show ¬ (0 : Fin 2) = 1 by decide), if_neg hroot,
      if_pos (And.intro (by rw [wFast_dist, wFast_minDist]; norm_num)
        (by rw [wFast_dist]; norm_num)),
      if_pos hdotneg, if_neg hnosnap]
  rw [Function.update_same, Function.update_noteq (show (0 : Fin 2) ≠ 1 by decide)]
  rw [wFast_push, wFast_norm, e1, e0]
  simp only [BrickSt.mk.injEq, Particle.mk.injEq, Vec.dot, Vec.mul_def, Vec.div_def,
    Vec.add_def, Vec.sub_def, Vec.mk.injEq]
  norm_num

/-- C1 counterexample: brick B above brick A in contact, horizontal offset 0,
steep normal, and the post-impulse relative speed is 39 < 120 — all of the
claim's conditions hold — yet the pass leaves B unwelded, because the code
tests the pre-impulse relative speed (130 ≥ 120 here). -/
theorem C1_snap_weld_counterexample :
    0 < contactDist wFast 1 0 ∧
    contactDist wFast 1 0 < contactMinDist wFast 1 0 ∧
    (contactNorm wFast 1 0).y < -0.7 ∧
    |(contactDiff wFast 1 0).x| < 0.35 * ((wFast 1).size + (wFast 0).size) ∧
    Vec.len ((((collideBody wFast 1 0) 1).p.pos - ((collideBody wFast 1 0) 1).p.prev) -
      (((collideBody wFast 1 0) 0).p.pos - ((collideBody wFast 1 0) 0).p.prev)) < 120 ∧
    ((collideBody wFast 1 0) 1).weldedTo = none := by
  have e1 : wFast 1 = ⟨⟨⟨100, 70⟩, ⟨100, -65⟩, ⟨0, 0⟩, 1⟩, 40, none, ⟨0, 0⟩, []⟩ := rfl
  have e0 : wFast 0 = ⟨⟨⟨100, 100⟩, ⟨100, 100⟩, ⟨0, 0⟩, 1⟩, 40, none, ⟨0, 0⟩, []⟩ := rfl
  refine ⟨by rw [wFast_dist]; norm_num,
          by rw [wFast_dist, wFast_minDist]; norm_num,
          by rw [wFast_norm]; norm_num,
          by rw [wFast_diff, e1, e0]; norm_num,
          ?_, ?_⟩
  · rw [wFast_result1, wFast_result0]
    have hv : (⟨⟨⟨100, 65⟩, ⟨100, 19.5⟩, ⟨0, 0⟩, 1⟩, 40, none, ⟨0, 0⟩, []⟩ :
        BrickSt 2).p.pos - (⟨⟨⟨100, 65⟩, ⟨100, 19.5⟩, ⟨0, 0⟩, 1⟩, 40, none, ⟨0, 0⟩, []⟩ :
        BrickSt 2).p.prev - ((⟨⟨⟨100, 100⟩, ⟨100, 15.5⟩, ⟨0, 0⟩, 1⟩, 40, none, ⟨0, 0⟩, []⟩ :
        BrickSt 2).p.pos - (⟨⟨⟨100, 100⟩, ⟨100, 15.5⟩, ⟨0, 0⟩, 1⟩, 40, none, ⟨0, 0⟩, []⟩ :
        BrickSt 2).p.prev) = (⟨0, -39⟩ : Vec) := by
      simp only [Vec.sub_def, Vec.mk.injEq]
      norm_num
    rw [hv, Vec.len_vertical]
    norm_num
  · rw [wFast_result1]

/-! ## C4: welded-child follow -/

theorem getRootAux_some (n : ℕ) (w : Fin n → Option (Fin n)) (cur parent : Fin n)
    (seen : Finset (Fin n)) (hw : w cur = some parent) (hc : cur ∉ seen) :
    getRootAux n w cur seen = getRootAux n w parent (insert cur seen) := by
  rw [getRootAux, hw]
  exact dif_neg hc

theorem getRoot_child (w : BrickWorld n) (i par : Fin n)
    (hwi : (w i).weldedTo = some par) (hwpar : (w par).weldedTo = none) :
    getRoot w i = par := by
  unfold getRoot getRootF
  rw [getRootAux_some n _ i par ∅ hwi (Finset.not_mem_empty i)]
  exact getRootAux_none n _ par _ hwpar

/-- Full tick of `Brick.update` for the welded child brick 0 of `wWeld`
(parent present): the follow step puts it at (0,-40) at parent velocity, but
gravity and integration still run, leaving it at (0,-31). -/
theorem C4_eval0 : (brickUpdate wWeld 0 (1/10) none (some [1])) 0 =
    ⟨⟨⟨0, -31⟩, ⟨0, -40⟩, ⟨0, 0⟩, 1⟩, 40, some 1, ⟨0, -40⟩, []⟩ := by
  have e0 : wWeld 0 = ⟨⟨⟨0, 0⟩, ⟨0, 0⟩, ⟨0, 0⟩, 1⟩, 40, some 1, ⟨0, -40⟩, []⟩ := rfl
  have e1 : wWeld 1 = ⟨⟨⟨0, 0⟩, ⟨0, 0⟩, ⟨0, 0⟩, 1⟩, 40, none, ⟨0, 0⟩, [0]⟩ := rfl
  have hcond : ¬((some [(1 : Fin 2)]) ≠ none ∧ (1 : Fin 2) ∉ (some [(1 : Fin 2)]).getD []) := by
    decide
  simp only [brickUpdate]
  rw [show (wWeld 0).weldedTo = some 1 from rfl]
  dsimp only
  rw [if_neg hcond]
  simp only [Function.update_same, Function.update_idem]
  simp only [List.foldl_cons, List.foldl_nil]
  simp only [collideBody]
  rw [if_neg (show ¬(1 : Fin 2) = 0 by decide)]
  split
  case isTrue h =>
    rw [Function.update_same]
    simp only [Particle.applyForce, Particle.update, e0, e1, Vec.add_def, Vec.sub_def,
      Vec.mul_def, Vec.div_def, BrickSt.mk.injEq, Particle.mk.injEq, Vec.mk.injEq]
    norm_num [max_def]
  case isFalse h =>
    exact absurd (by rw [getRoot_child _ 0 1 rfl rfl, getRoot_of_none _ 1 rfl]) h

theorem C4_eval1 : (brickUpdate wWeld 0 (1/10) none (some [1])) 1 = wWeld 1 := by
  have hcond : ¬((some [(1 : Fin 2)]) ≠ none ∧ (1 : Fin 2) ∉ (some [(1 : Fin 2)]).getD []) := by
    decide
  simp only [brickUpdate]
  rw [show (wWeld 0).weldedTo = some 1 from rfl]
  dsimp only
  rw [if_neg hcond]
  simp only [Function.update_same, Function.update_idem]
  simp only [List.foldl_cons, List.foldl_nil]
  simp only [collideBody]
  rw [if_neg (show ¬(1 : Fin 2) = 0 by decide)]
  split
  case isTrue h =>
    rw [Function.update_noteq (show (1 : Fin 2) ≠ 0 by decide)]
  case isFalse h =>
    exact absurd (by rw [getRoot_child _ 0 1 rfl rfl, getRoot_of_none _ 1 rfl]) h

/-- C4: the welded-follow block of `Brick.update` copies the parent-relative
pose, but — contrary to the claim and to the source's own comment ("We'll
still return early so stacked bricks remain locked") — there is no early
return: gravity and integration run right after.  The welded child of
`wWeld` ends at `(0, -31) = parent.pos + offset + (0, 900·dt²)` instead of
`parent.pos + offset = (0, -40)`, and its velocity `(0, 9)` differs from the
parent's `(0, 0)`.  The auto-detach half of the claim does hold: with the
parent absent from the supplied list, the weld is broken instead of raising. -/
theorem C4_welded_follow_code_bug :
    (brickUpdate wWeld 0 (1/10) none (some [1])) 0 =
      ⟨⟨⟨0, -31⟩, ⟨0, -40⟩, ⟨0, 0⟩, 1⟩, 40, some 1, ⟨0, -40⟩, []⟩ ∧
    ((brickUpdate wWeld 0 (1/10) none (some [1])) 0).p.pos ≠
      ((brickUpdate wWeld 0 (1/10) none (some [1])) 1).p.pos +
        ((brickUpdate wWeld 0 (1/10) none (some [1])) 0).weldedOffset ∧
    ((brickUpdate wWeld 0 (1/10) none (some [1])) 0).p.pos -
        ((brickUpdate wWeld 0 (1/10) none (some [1])) 0).p.prev ≠
      ((brickUpdate wWeld 0 (1/10) none (some [1])) 1).p.pos -
        ((brickUpdate wWeld 0 (1/10) none (some [1])) 1).p.prev ∧
    ((brickUpdate wWeld 0 (1/10) none (some [])) 0).weldedTo = none := by
  have e1 : wWeld 1 = ⟨⟨⟨0, 0⟩, ⟨0, 0⟩, ⟨0, 0⟩, 1⟩, 40, none, ⟨0, 0⟩, [0]⟩ := rfl
  refine ⟨C4_eval0, ?_, ?_, rfl⟩
  · rw [C4_eval0, C4_eval1, e1]
    simp only [Vec.add_def, ne_eq, Vec.mk.injEq]
    norm_num
  · rw [C4_eval0, C4_eval1, e1]
    simp only [Vec.sub_def, ne_eq, Vec.mk.injEq]
    norm_num

end Boxigon

namespace Boxigon

/-- Shape of `weld_effect` for a touched list holding exactly one other
object, in the group-merge case (combined size within the cap). -/
theorem weldEffect_merge_shape (s : ToolState) (w : ObjWorld) (target other tg og : ℕ)
    (hw : s.welded = [(other, none)])
    (hton : other ≠ target)
    (htg : findGroup s.weldGroups target = some tg)
    (hog : findGroup s.weldGroups other = some og)
    (hogtg : og ≠ tg)
    (hdist : Vec.len (((weldPush s w target) target).pos -
      ((weldPush s w target) other).pos) < s.radius * 2)
    (hcap : (groupSet s.weldGroups tg).card + (groupSet s.weldGroups og).card ≤
      s.maxGroupSize) :
    (weldEffect s w target none).1.weldGroups =
      ((s.weldGroups.map fun e =>
          if e.1 = tg then (e.1, e.2 ∪ groupSet s.weldGroups og) else e).filter
        (fun e => e.1 != og)) ∧
    (((s.joints.map fun j =>
          if j.group = some og then { j with group := some tg } else j).any
        (fun j => (j.a == target && j.b == other) || (j.a == other && j.b == target))) = true →
      (weldEffect s w target none).1.joints =
        (s.joints.map fun j =>
          if j.group = some og then { j with group := some tg } else j)) ∧
    (((s.joints.map fun j =>
          if j.group = some og then { j with group := some tg } else j).any
        (fun j => (j.a == target && j.b == other) || (j.a == other && j.b == target))) = false →
      (weldEffect s w target none).1.joints =
        (s.joints.map fun j =>
          if j.group = some og then { j with group := some tg } else j) ++
        [{ a := target, b := other, aAttach := none, bAttach := none,
           offset := ((weldPush s w target) other).pos -
             ((weldPush s w target) target).pos,
           group := some tg }]) := by
  simp only [weldEffect, htg]
  dsimp only [getAttachPos]
  rw [hw]
  simp only [List.foldl_cons, List.foldl_nil, weldLoopStep]
  rw [if_neg hton, hog]
  rw [if_neg (show ¬((some og : Option ℕ) = some tg) by simp [hogtg])]
  dsimp only [getAttachPos]
  rw [if_pos hdist]
  rw [if_pos hcap]
  refine ⟨?_, ?_, ?_⟩
  · dsimp only
    split <;> rfl
  · intro h
    dsimp only
    split
    · rfl
    · rename_i hb
      exact absurd h hb
  · intro h
    dsimp only
    split
    · rename_i hb
      have h2 : ((s.joints.map fun j =>
          if j.group = some og then { j with group := some tg } else j).any
        (fun j => (j.a == target && j.b == other) || (j.a == other && j.b == target))) = true := hb
      exact (Bool.false_ne_true (h.symm.trans h2)).elim
    · rfl

/-- Shape of `weld_effect` for a touched list holding exactly one other
object, in the cap-exceeded case: the groups are untouched, but a joint
linking the pair is still appended (unless one already exists). -/
theorem weldEffect_reject_shape (s : ToolState) (w : ObjWorld) (target other tg og : ℕ)
    (hw : s.welded = [(other, none)])
    (hton : other ≠ target)
    (htg : findGroup s.weldGroups target = some tg)
    (hog : findGroup s.weldGroups other = some og)
    (hogtg : og ≠ tg)
    (hdist : Vec.len (((weldPush s w target) target).pos -
      ((weldPush s w target) other).pos) < s.radius * 2)
    (hcap : s.maxGroupSize <
      (groupSet s.weldGroups tg).card + (groupSet s.weldGroups og).card) :
    (weldEffect s w target none).1.weldGroups = s.weldGroups ∧
    ((s.joints.any (fun j =>
        (j.a == target && j.b == other) || (j.a == other && j.b == target))) = true →
      (weldEffect s w target none).1.joints = s.joints) ∧
    ((s.joints.any (fun j =>
        (j.a == target && j.b == other) || (j.a == other && j.b == target))) = false →
      (weldEffect s w target none).1.joints = s.joints ++
        [{ a := target, b := other, aAttach := none, bAttach := none,
           offset := ((weldPush s w target) other).pos -
             ((weldPush s w target) target).pos,
           group := some tg }]) := by
  simp only [weldEffect, htg]
  dsimp only [getAttachPos]
  rw [hw]
  simp only [List.foldl_cons, List.foldl_nil, weldLoopStep]
  rw [if_neg hton, hog]
  rw [if_neg (show ¬((some og : Option ℕ) = some tg) by simp [hogtg])]
  dsimp only [getAttachPos]
  rw [if_pos hdist]
  rw [if_neg (not_le.mpr hcap)]
  refine ⟨?_, ?_, ?_⟩
  · dsimp only
    split <;> rfl
  · intro h
    dsimp only
    split
    · rfl
    · rename_i hb
      exact absurd h hb
  · intro h
    dsimp only
    split
    · rename_i hb
      have h2 : (s.joints.any (fun j =>
          (j.a == target && j.b == other) || (j.a == other && j.b == target))) = true := hb
      exact (Bool.false_ne_true (h.symm.trans h2)).elim
    · rfl

theorem findGroup_mem : ∀ (G : List (ℕ × Finset ℕ)) (o g : ℕ),
    findGroup G o = some g → ∃ e ∈ G, e.1 = g ∧ o ∈ e.2 := by
  intro G
  induction G with
  | nil => intro o g h; simp [findGroup] at h
  | cons e rest ih =>
    intro o g h
    by_cases ho : o ∈ e.2
    · rw [findGroup, if_pos ho] at h
      exact ⟨e, List.mem_cons_self e rest, Option.some.inj h, ho⟩
    · rw [findGroup, if_neg ho] at h
      obtain ⟨e2, hmem, h1, h2⟩ := ih o g h
      exact ⟨e2, List.mem_cons_of_mem e hmem, h1, h2⟩

theorem groupSet_cons_eq (e : ℕ × Finset ℕ) (G : List (ℕ × Finset ℕ)) (g : ℕ)
    (h : e.1 = g) : groupSet (e :: G) g = e.2 := by
  rw [groupSet, List.find?_cons_of_pos _ (by simpa using h)]

theorem groupSet_cons_ne (e : ℕ × Finset ℕ) (G : List (ℕ × Finset ℕ)) (g : ℕ)
    (h : ¬ e.1 = g) : groupSet (e :: G) g = groupSet G g := by
  rw [groupSet, List.find?_cons_of_neg _ (by simpa using h), groupSet]

theorem groupSet_entry : ∀ (G : List (ℕ × Finset ℕ)) (g : ℕ),
    g ∈ G.map Prod.fst → ∃ e ∈ G, e.1 = g ∧ groupSet G g = e.2 := by
  intro G
  induction G with
  | nil => intro g h; simp at h
  | cons e rest ih =>
    intro g h
    by_cases he : e.1 = g
    · exact ⟨e, List.mem_cons_self e rest, he, groupSet_cons_eq e rest g he⟩
    · have : g ∈ rest.map Prod.fst := by
        rcases List.mem_map.mp h with ⟨e2, hmem, hfst⟩
        rcases List.mem_cons.mp hmem with h1 | h1
        · exact absurd (h1 ▸ hfst) he
        · exact List.mem_map.mpr ⟨e2, h1, hfst⟩
      obtain ⟨e2, hmem, h1, h2⟩ := ih g this
      exact ⟨e2, List.mem_cons_of_mem e hmem,
        h1, (groupSet_cons_ne e rest g he).trans h2⟩

theorem mapFst_retag (G : List (ℕ × Finset ℕ)) (tg : ℕ) (S : Finset ℕ) :
    (G.map fun e => if e.1 = tg then (e.1, e.2 ∪ S) else e).map Prod.fst =
      G.map Prod.fst := by
  induction G with
  | nil => rfl
  | cons e rest ih =>
    simp only [List.map_cons, ih]
    by_cases h : e.1 = tg <;> simp [h]

theorem groupSet_merge (G : List (ℕ × Finset ℕ)) (tg og : ℕ) (S : Finset ℕ)
    (hne : ¬ tg = og) (htg_mem : tg ∈ G.map Prod.fst) :
    groupSet ((G.map fun e => if e.1 = tg then (e.1, e.2 ∪ S) else e).filter
      (fun e => e.1 != og)) tg = groupSet G tg ∪ S := by
  induction G with
  | nil => simp at htg_mem
  | cons e rest ih =>
    by_cases h : e.1 = tg
    · simp only [List.map_cons, if_pos h, List.filter_cons]
      have hkeep : (((e.1, e.2 ∪ S) : ℕ × Finset ℕ).1 != og) = true := by
        simp only [bne_iff_ne, ne_eq]
        intro hh
        exact hne (h.symm.trans hh)
      rw [if_pos hkeep]
      rw [groupSet_cons_eq (e.1, e.2 ∪ S) _ tg h, groupSet_cons_eq e rest tg h]
    · simp only [List.map_cons, if_neg h, List.filter_cons]
      have htg2 : tg ∈ rest.map Prod.fst := by
        rcases List.mem_map.mp htg_mem with ⟨e2, hmem, hfst⟩
        rcases List.mem_cons.mp hmem with h1 | h1
        · exact absurd (h1 ▸ hfst) h
        · exact List.mem_map.mpr ⟨e2, h1, hfst⟩
      rw [groupSet_cons_ne _ _ _ h]
      split
      · rw [groupSet_cons_ne _ _ _ h]
        exact ih htg2
      · exact ih htg2

theorem mem_of_mem_merge (G : List (ℕ × Finset ℕ)) (tg og : ℕ) (S : Finset ℕ)
    (e2 : ℕ × Finset ℕ)
    (h : e2 ∈ (G.map fun e => if e.1 = tg then (e.1, e.2 ∪ S) else e).filter
      (fun e => e.1 != og))
    (hne : e2.1 ≠ tg) : e2 ∈ G := by
  rw [List.mem_filter] at h
  rcases List.mem_map.mp h.1 with ⟨e0, he0, heq⟩
  by_cases h0 : e0.1 = tg
  · rw [if_pos h0] at heq
    exfalso
    apply hne
    rw [← heq]
    exact h0
  · rw [if_neg h0] at heq
    exact heq ▸ he0

/-- C3: when `weld_effect` merges two weld groups (combined size within
`max_group_size`), the surviving id holds exactly the union of the two
member sets, the absorbed id is gone (so no object of the union is in any
other group), and every joint that referenced either original group id now
references the surviving id. -/
theorem C3_group_merge_retag (s : ToolState) (w : ObjWorld) (target other tg og : ℕ)
    (hw : s.welded = [(other, none)])
    (hton : other ≠ target)
    (htg : findGroup s.weldGroups target = some tg)
    (hog : findGroup s.weldGroups other = some og)
    (hogtg : og ≠ tg)
    (hkeys : (s.weldGroups.map Prod.fst).Nodup)
    (hdisj : ∀ e1 ∈ s.weldGroups, ∀ e2 ∈ s.weldGroups, e1.1 ≠ e2.1 →
      Disjoint e1.2 e2.2)
    (hdist : Vec.len (((weldPush s w target) target).pos -
      ((weldPush s w target) other).pos) < s.radius * 2)
    (hcap : (groupSet s.weldGroups tg).card + (groupSet s.weldGroups og).card ≤
      s.maxGroupSize) :
    ((weldEffect s w target none).1.weldGroups.map Prod.fst).Nodup ∧
    tg ∈ (weldEffect s w target none).1.weldGroups.map Prod.fst ∧
    og ∉ (weldEffect s w target none).1.weldGroups.map Prod.fst ∧
    groupSet (weldEffect s w target none).1.weldGroups tg =
      groupSet s.weldGroups tg ∪ groupSet s.weldGroups og ∧
    (∀ e2 ∈ (weldEffect s w target none).1.weldGroups, e2.1 ≠ tg →
      ∀ x ∈ groupSet s.weldGroups tg ∪ groupSet s.weldGroups og, x ∉ e2.2) ∧
    (∀ j ∈ s.joints, j.group = some og →
      { j with group := some tg } ∈ (weldEffect s w target none).1.joints) ∧
    (∀ j ∈ s.joints, j.group = some tg →
      j ∈ (weldEffect s w target none).1.joints) ∧
    (∀ j ∈ (weldEffect s w target none).1.joints, j.group ≠ some og) := by
  obtain ⟨hG, hJtrue, hJfalse⟩ :=
    weldEffect_merge_shape s w target other tg og hw hton htg hog hogtg hdist hcap
  have htgne : ¬ tg = og := fun h => hogtg h.symm
  obtain ⟨etg, hetg_mem, hetg_fst, hetg_in⟩ := findGroup_mem s.weldGroups target tg htg
  obtain ⟨eog, heog_mem, heog_fst, heog_in⟩ := findGroup_mem s.weldGroups other og hog
  have htg_memfst : tg ∈ s.weldGroups.map Prod.fst :=
    List.mem_map.mpr ⟨etg, hetg_mem, hetg_fst⟩
  have hog_memfst : og ∈ s.weldGroups.map Prod.fst :=
    List.mem_map.mpr ⟨eog, heog_mem, heog_fst⟩
  have hsub : ((weldEffect s w target none).1.weldGroups.map Prod.fst).Sublist
      (s.weldGroups.map Prod.fst) := by
    rw [hG, ← mapFst_retag s.weldGroups tg (groupSet s.weldGroups og)]
    exact List.Sublist.map Prod.fst (List.filter_sublist _)
  have hJ : (weldEffect s w target none).1.joints =
        (s.joints.map fun j =>
          if j.group = some og then { j with group := some tg } else j) ∨
      (weldEffect s w target none).1.joints =
        (s.joints.map fun j =>
          if j.group = some og then { j with group := some tg } else j) ++
        [{ a := target, b := other, aAttach := none, bAttach := none,
           offset := ((weldPush s w target) other).pos -
             ((weldPush s w target) target).pos,
           group := some tg }] := by
    cases hb : ((s.joints.map fun j =>
        if j.group = some og then { j with group := some tg } else j).any
        (fun j => (j.a == target && j.b == other) || (j.a == other && j.b == target)))
    · exact Or.inr (hJfalse hb)
    · exact Or.inl (hJtrue hb)
  refine ⟨hsub.nodup hkeys, ?_, ?_, ?_, ?_, ?_, ?_, ?_⟩
  · rw [hG]
    refine List.mem_map.mpr ⟨(etg.1, etg.2 ∪ groupSet s.weldGroups og), ?_, hetg_fst⟩
    refine List.mem_filter.mpr ⟨?_, ?_⟩
    · refine List.mem_map.mpr ⟨etg, hetg_mem, ?_⟩
      rw [if_pos hetg_fst]
    · simp only [bne_iff_ne, ne_eq]
      intro hh
      exact htgne ((hetg_fst.symm.trans hh))
  · rw [hG]
    intro hmem
    obtain ⟨e2, he2, hfst⟩ := List.mem_map.mp hmem
    have := (List.mem_filter.mp he2).2
    rw [hfst] at this
    simp at this
  · rw [hG]
    exact groupSet_merge s.weldGroups tg og (groupSet s.weldGroups og) htgne htg_memfst
  · intro e2 he2 hne2 x hx
    rw [hG] at he2
    have he2G : e2 ∈ s.weldGroups :=
      mem_of_mem_merge s.weldGroups tg og (groupSet s.weldGroups og) e2 he2 hne2
    have he2og : e2.1 ≠ og := by
      have := (List.mem_filter.mp he2).2
      simpa using this
    obtain ⟨etg2, hm2, hfst2, hgs2⟩ := groupSet_entry s.weldGroups tg htg_memfst
    obtain ⟨eog2, hm3, hfst3, hgs3⟩ := groupSet_entry s.weldGroups og hog_memfst
    rcases Finset.mem_union.mp hx with hx1 | hx1
    · have hd := hdisj e2 he2G etg2 hm2 (by rw [hfst2]; exact hne2)
      exact Finset.disjoint_right.mp hd (hgs2 ▸ hx1)
    · have hd := hdisj e2 he2G eog2 hm3 (by rw [hfst3]; exact he2og)
      exact Finset.disjoint_right.mp hd (hgs3 ▸ hx1)
  · intro j hj hjog
    have hmem : { j with group := some tg } ∈ (s.joints.map fun j =>
        if j.group = some og then { j with group := some tg } else j) := by
      refine List.mem_map.mpr ⟨j, hj, ?_⟩
      rw [if_pos hjog]
    rcases hJ with h | h <;> rw [h]
    · exact hmem
    · exact List.mem_append_left _ hmem
  · intro j hj hjtg
    have hmem : j ∈ (s.joints.map fun j =>
        if j.group = some og then { j with group := some tg } else j) := by
      refine List.mem_map.mpr ⟨j, hj, ?_⟩
      rw [if_neg (by rw [hjtg]; simp [htgne])]
    rcases hJ with h | h <;> rw [h]
    · exact hmem
    · exact List.mem_append_left _ hmem
  · intro j hj
    have hmap : ∀ j2 ∈ (s.joints.map fun j =>
        if j.group = some og then { j with group := some tg } else j),
        j2.group ≠ some og := by
      intro j2 hj2
      obtain ⟨j0, _, hj0⟩ := List.mem_map.mp hj2
      by_cases h0 : j0.group = some og
      · rw [if_pos h0] at hj0
        rw [← hj0]
        intro hcontra
        exact hogtg (Option.some.inj hcontra).symm
      · rw [if_neg h0] at hj0
        rw [← hj0]
        exact h0
    rcases hJ with h | h
    · exact hmap j (h ▸ hj)
    · rw [h] at hj
      rcases List.mem_append.mp hj with h1 | h1
      · exact hmap j h1
      · have hjeq : j = (⟨target, other, none, none,
            ((weldPush s w target) other).pos - ((weldPush s w target) target).pos,
            some tg⟩ : Joint) := by simpa using h1
        rw [hjeq]
        intro hcontra
        exact hogtg (Option.some.inj hcontra).symm

/-- The tool's separating push is a no-op for an object located exactly at
the tool position (zero diff, `dist` falls back to 0.001, delta is zero). -/
theorem weldPush_origin_self (s : ToolState) (hpos : s.pos = ⟨0, 0⟩) (t : ℕ) :
    ((weldPush s oWorldZero t) t).pos = ⟨0, 0⟩ := by
  simp only [weldPush, Function.update_same, weldPushDelta, hpos, oWorldZero,
    Vec.sub_def, Vec.add_def, Vec.div_def, Vec.mul_def]
  norm_num [Vec.len]

theorem weldPush_origin_other (s : ToolState) (t o : ℕ) (hne : o ≠ t) :
    ((weldPush s oWorldZero t) o).pos = ⟨0, 0⟩ := by
  rw [weldPush, Function.update_noteq hne]
  rfl

theorem sCap_findGroup_target : findGroup sCap.weldGroups 1 = some 0 := by
  show findGroup [(0, Finset.Icc 1 60), (1, Finset.Icc 61 120)] 1 = some 0
  rw [findGroup, if_pos (by simp)]

theorem sCap_findGroup_other : findGroup sCap.weldGroups 61 = some 1 := by
  show findGroup [(0, Finset.Icc 1 60), (1, Finset.Icc 61 120)] 61 = some 1
  rw [findGroup, if_neg (by simp), findGroup, if_pos (by simp)]

theorem sCap_dist : Vec.len (((weldPush sCap oWorldZero 1) 1).pos -
    ((weldPush sCap oWorldZero 1) 61).pos) < sCap.radius * 2 := by
  rw [weldPush_origin_self sCap rfl 1, weldPush_origin_other sCap 1 61 (by norm_num)]
  rw [show sCap.radius = 36 from rfl]
  simp only [Vec.sub_def]
  norm_num [Vec.len]

theorem sCap_cards : sCap.maxGroupSize <
    (groupSet sCap.weldGroups 0).card + (groupSet sCap.weldGroups 1).card := by
  have h0 : groupSet sCap.weldGroups 0 = Finset.Icc 1 60 := by
    show groupSet [(0, Finset.Icc 1 60), (1, Finset.Icc 61 120)] 0 = _
    rw [groupSet_cons_eq _ _ _ rfl]
  have h1 : groupSet sCap.weldGroups 1 = Finset.Icc 61 120 := by
    show groupSet [(0, Finset.Icc 1 60), (1, Finset.Icc 61 120)] 1 = _
    rw [groupSet_cons_ne _ _ _ (by norm_num), groupSet_cons_eq _ _ _ rfl]
  rw [h0, h1, show sCap.maxGroupSize = 100 from rfl]
  simp [Nat.card_Icc]

/-- C2 counterexample: two full groups of 60 members (cap 100) touched
together — the merge is rejected and `weld_groups` is untouched, but a
joint record linking the two objects IS appended, falsifying "no joint
record linking the two objects is added". -/
theorem C2_group_cap_counterexample :
    (weldEffect sCap oWorldZero 1 none).1.weldGroups = sCap.weldGroups ∧
    (weldEffect sCap oWorldZero 1 none).1.joints =
      [{ a := 1, b := 61, aAttach := none, bAttach := none, offset := ⟨0, 0⟩,
         group := some 0 }] := by
  obtain ⟨hG, _, hJf⟩ := weldEffect_reject_shape sCap oWorldZero 1 61 0 1 rfl
    (by norm_num) sCap_findGroup_target sCap_findGroup_other (by norm_num)
    sCap_dist sCap_cards
  refine ⟨hG, ?_⟩
  rw [hJf rfl]
  have hoff : ((weldPush sCap oWorldZero 1) 61).pos -
      ((weldPush sCap oWorldZero 1) 1).pos = (⟨0, 0⟩ : Vec) := by
    rw [weldPush_origin_self sCap rfl 1, weldPush_origin_other sCap 1 61 (by norm_num)]
    simp only [Vec.sub_def, Vec.mk.injEq]
    norm_num
  rw [show sCap.joints = [] from rfl, hoff]
  rfl

/-- C2 (amended): when joining the touched object to another would merge
two groups whose combined size exceeds `max_group_size`, the merge is
rejected and `weld_groups` is left unchanged — the two objects stay in
their separate groups under distinct ids — but, unless one already exists,
a joint record linking the two objects is still appended, tagged with the
touched object's group id. -/
theorem C2_group_cap_amended (s : ToolState) (w : ObjWorld) (target other tg og : ℕ)
    (hw : s.welded = [(other, none)])
    (hton : other ≠ target)
    (htg : findGroup s.weldGroups target = some tg)
    (hog : findGroup s.weldGroups other = some og)
    (hogtg : og ≠ tg)
    (hdist : Vec.len (((weldPush s w target) target).pos -
      ((weldPush s w target) other).pos) < s.radius * 2)
    (hcap : s.maxGroupSize <
      (groupSet s.weldGroups tg).card + (groupSet s.weldGroups og).card) :
    (weldEffect s w target none).1.weldGroups = s.weldGroups ∧
    findGroup (weldEffect s w target none).1.weldGroups target = some tg ∧
    findGroup (weldEffect s w target none).1.weldGroups other = some og ∧
    ((s.joints.any (fun j =>
        (j.a == target && j.b == other) || (j.a == other && j.b == target))) = true →
      (weldEffect s w target none).1.joints = s.joints) ∧
    ((s.joints.any (fun j =>
        (j.a == target && j.b == other) || (j.a == other && j.b == target))) = false →
      (weldEffect s w target none).1.joints = s.joints ++
        [{ a := target, b := other, aAttach := none, bAttach := none,
           offset := ((weldPush s w target) other).pos -
             ((weldPush s w target) target).pos,
           group := some tg }]) := by
  obtain ⟨hG, hJt, hJf⟩ :=
    weldEffect_reject_shape s w target other tg og hw hton htg hog hogtg hdist hcap
  exact ⟨hG, hG ▸ htg, hG ▸ hog, hJt, hJf⟩

/-- Witness for the amended C2 at the concrete two-full-groups state. -/
theorem C2_group_cap_amended_witness :
    (weldEffect sCap oWorldZero 1 none).1.weldGroups = sCap.weldGroups ∧
    findGroup (weldEffect sCap oWorldZero 1 none).1.weldGroups 1 = some 0 ∧
    findGroup (weldEffect sCap oWorldZero 1 none).1.weldGroups 61 = some 1 ∧
    ((sCap.joints.any (fun j =>
        (j.a == 1 && j.b == 61) || (j.a == 61 && j.b == 1))) = true →
      (weldEffect sCap oWorldZero 1 none).1.joints = sCap.joints) ∧
    ((sCap.joints.any (fun j =>
        (j.a == 1 && j.b == 61) || (j.a == 61 && j.b == 1))) = false →
      (weldEffect sCap oWorldZero 1 none).1.joints = sCap.joints ++
        [{ a := 1, b := 61, aAttach := none, bAttach := none,
           offset := ((weldPush sCap oWorldZero 1) 61).pos -
             ((weldPush sCap oWorldZero 1) 1).pos,
           group := some 0 }]) :=
  C2_group_cap_amended sCap oWorldZero 1 61 0 1 rfl (by norm_num)
    sCap_findGroup_target sCap_findGroup_other (by norm_num) sCap_dist sCap_cards

theorem sSmall_findGroup_target : findGroup sSmall.weldGroups 1 = some 0 := by
  show findGroup [(0, ({1} : Finset ℕ)), (1, {2})] 1 = some 0
  rw [findGroup, if_pos (by simp)]

theorem sSmall_findGroup_other : findGroup sSmall.weldGroups 2 = some 1 := by
  show findGroup [(0, ({1} : Finset ℕ)), (1, {2})] 2 = some 1
  rw [findGroup, if_neg (by simp), findGroup, if_pos (by simp)]

theorem sSmall_dist : Vec.len (((weldPush sSmall oWorldZero 1) 1).pos -
    ((weldPush sSmall oWorldZero 1) 2).pos) < sSmall.radius * 2 := by
  rw [weldPush_origin_self sSmall rfl 1, weldPush_origin_other sSmall 1 2 (by norm_num)]
  rw [show sSmall.radius = 36 from rfl]
  simp only [Vec.sub_def]
  norm_num [Vec.len]

theorem sSmall_cap : (groupSet sSmall.weldGroups 0).card +
    (groupSet sSmall.weldGroups 1).card ≤ sSmall.maxGroupSize := by
  have h0 : groupSet sSmall.weldGroups 0 = {1} := by
    show groupSet [(0, ({1} : Finset ℕ)), (1, {2})] 0 = _
    rw [groupSet_cons_eq _ _ _ rfl]
  have h1 : groupSet sSmall.weldGroups 1 = {2} := by
    show groupSet [(0, ({1} : Finset ℕ)), (1, {2})] 1 = _
    rw [groupSet_cons_ne _ _ _ (by norm_num), groupSet_cons_eq _ _ _ rfl]
  rw [h0, h1, show sSmall.maxGroupSize = 100 from rfl]
  simp

/-- Witness for C3 at a concrete merge of the singleton groups {1} and {2}. -/
theorem C3_group_merge_retag_witness :
    (((weldEffect sSmall oWorldZero 1 none).1.weldGroups.map Prod.fst).Nodup) ∧
    0 ∈ (weldEffect sSmall oWorldZero 1 none).1.weldGroups.map Prod.fst ∧
    1 ∉ (weldEffect sSmall oWorldZero 1 none).1.weldGroups.map Prod.fst ∧
    groupSet (weldEffect sSmall oWorldZero 1 none).1.weldGroups 0 =
      groupSet sSmall.weldGroups 0 ∪ groupSet sSmall.weldGroups 1 ∧
    (∀ e2 ∈ (weldEffect sSmall oWorldZero 1 none).1.weldGroups, e2.1 ≠ 0 →
      ∀ x ∈ groupSet sSmall.weldGroups 0 ∪ groupSet sSmall.weldGroups 1, x ∉ e2.2) ∧
    (∀ j ∈ sSmall.joints, j.group = some 1 →
      { j with group := some 0 } ∈ (weldEffect sSmall oWorldZero 1 none).1.joints) ∧
    (∀ j ∈ sSmall.joints, j.group = some 0 →
      j ∈ (weldEffect sSmall oWorldZero 1 none).1.joints) ∧
    (∀ j ∈ (weldEffect sSmall oWorldZero 1 none).1.joints, j.group ≠ some 1) :=
  C3_group_merge_retag sSmall oWorldZero 1 2 0 1 rfl (by norm_num)
    sSmall_findGroup_target sSmall_findGroup_other (by norm_num)
    (by show ([(0, ({1} : Finset ℕ)), (1, {2})].map Prod.fst).Nodup; simp)
    (by
      intro e1 h1 e2 h2 hne
      rw [show sSmall.weldGroups = [(0, ({1} : Finset ℕ)), (1, {2})] from rfl] at h1 h2
      have h1b : e1 = (0, ({1} : Finset ℕ)) ∨ e1 = (1, ({2} : Finset ℕ)) := by
        simpa using h1
      have h2b : e2 = (0, ({1} : Finset ℕ)) ∨ e2 = (1, ({2} : Finset ℕ)) := by
        simpa using h2
      rcases h1b with h1b | h1b <;> rcases h2b with h2b | h2b <;>
        subst h1b <;> subst h2b <;> simp_all)
    sSmall_dist sSmall_cap

end Boxigon
